import Mathlib

/-!
# CHIP-8 interpreter (`main.go`): shallow embedding and verified properties

The Go program keeps one `Chip8` struct and drives it from `main`: a ROM load
loop followed either by the `-d` branch, which prints a disassembly through
`Chip8.Disassemble`, or by an endless fetch / dispatch loop.  The embedding
below turns each of these pieces into a total Lean function over an explicit
machine state.

Conventions.

* Go's `byte` and `uint16` are natural numbers; wherever Go truncates (an
  addition on a `byte`, `PC += 2` on a `uint16`, a `byte(...)` conversion, a
  left shift on a `uint16`) the embedding writes the reduction `% 256` or
  `% 65536` explicitly.
* A fixed-size Go array `[n]byte` is a function `Nat → Nat` whose cells
  `0 .. n-1` are the array; every index expression of the source is guarded
  by the bound check the Go run time performs, and a failed check ends the
  computation in `Outcome.indexOutOfRange`.
* A Go `panic(...)` ends the computation in `Outcome.unknownOpcode`, carrying
  the machine as it is at that moment.
-/

namespace Chip8Emu

/-! ## Data model -/

/-- The table `chip8FontSet` (an `[80]byte`), sixteen glyphs of five bytes. -/
def chip8FontSet : List Nat :=
  [ 0xF0, 0x90, 0x90, 0x90, 0xF0, -- 0
    0x20, 0x60, 0x20, 0x20, 0x70, -- 1
    0xF0, 0x10, 0xF0, 0x80, 0xF0, -- 2
    0xF0, 0x10, 0xF0, 0x10, 0xF0, -- 3
    0x90, 0x90, 0xF0, 0x10, 0x10, -- 4
    0xF0, 0x80, 0xF0, 0x10, 0xF0, -- 5
    0xF0, 0x80, 0xF0, 0x90, 0xF0, -- 6
    0xF0, 0x10, 0x20, 0x40, 0x40, -- 7
    0xF0, 0x90, 0xF0, 0x90, 0xF0, -- 8
    0xF0, 0x90, 0xF0, 0x10, 0xF0, -- 9
    0xF0, 0x90, 0xF0, 0x90, 0x90, -- A
    0xE0, 0x90, 0xE0, 0x90, 0xE0, -- B
    0xF0, 0x80, 0x80, 0x80, 0xF0, -- C
    0xE0, 0x90, 0x90, 0x90, 0xE0, -- D
    0xF0, 0x80, 0xF0, 0x80, 0xF0, -- E
    0xF0, 0x80, 0xF0, 0x80, 0x80 ] -- F

/-- The struct `Chip8`.  `Memory` has 4096 cells, `V`, `Stack` and `Keypad`
have 16, `Display` has `64 * 32`. -/
structure Chip8 where
  Opcode : Nat
  I : Nat
  PC : Nat
  Memory : Nat → Nat
  V : Nat → Nat
  Stack : Nat → Nat
  SP : Nat
  Display : Nat → Nat
  Keypad : Nat → Nat
  DelayTimer : Nat

/-- The composite literal `Chip8{}`: Go's zero value of the struct. -/
def Chip8.zero : Chip8 :=
  { Opcode := 0, I := 0, PC := 0, Memory := fun _ => 0, V := fun _ => 0,
    Stack := fun _ => 0, SP := 0, Display := fun _ => 0, Keypad := fun _ => 0,
    DelayTimer := 0 }

/-- The array assignment `a[i] = v`. -/
def setAt (a : Nat → Nat) (i v : Nat) : Nat → Nat :=
  fun j => if j = i then v else a j

/-- How a piece of `main` ends. -/
inductive Outcome where
  /-- The code ran to its end; the machine it leaves. -/
  | ok (c : Chip8)
  /-- One of the `panic(fmt.Sprintf("unknown opcode ..."))` calls was reached. -/
  | unknownOpcode (c : Chip8)
  /-- The Go run time rejected an array index. -/
  | indexOutOfRange (c : Chip8)

/-- The three ways of ending, without the machine. -/
inductive Kind where
  | ok
  | unknownOpcode
  | indexOutOfRange
  deriving DecidableEq, Repr

/-- Which way a computation ended. -/
def Outcome.kind : Outcome → Kind
  | .ok _ => .ok
  | .unknownOpcode _ => .unknownOpcode
  | .indexOutOfRange _ => .indexOutOfRange

/-- The machine at the moment a computation ended. -/
def Outcome.state : Outcome → Chip8
  | .ok c => c
  | .unknownOpcode c => c
  | .indexOutOfRange c => c

/-! ## `Chip8.Init` -/

/-- The loop `for i := 0; i < n; i++ { a[i] = 0 }`, cells in ascending order. -/
def clearLoop : Nat → (Nat → Nat) → (Nat → Nat)
  | 0, a => a
  | n + 1, a => setAt (clearLoop n a) n 0

/-- The loop `for i := 0; i < n; i++ { m[i] = chip8FontSet[i] }`. -/
def fontLoop : Nat → (Nat → Nat) → (Nat → Nat)
  | 0, m => m
  | n + 1, m => setAt (fontLoop n m) n (chip8FontSet.getD n 0)

/-- The statements of `Init`, run on the receiver variable `c` of the method. -/
def InitBody (c : Chip8) : Chip8 :=
  let c := { c with Opcode := 0 }
  let c := { c with PC := 0x200 }
  let c := { c with I := 0 }
  let c := { c with SP := 0 }
  let c := { c with Display := clearLoop (64 * 32) c.Display }
  let c := { c with Memory := fontLoop 80 c.Memory }
  c

/-- The call `m.Init()` seen from the caller.  The method is declared
`func (c Chip8) Init()`, with a value receiver: Go copies the struct `m`
(its arrays included) into `c`, the body works on that copy, and the copy is
dropped at return.  The result is the caller's machine after the call. -/
def Init (m : Chip8) : Chip8 :=
  let _c := InitBody m
  m

/-! ## The ROM load loop of `main` -/

/-- The loop `for i := range data { chip8.Memory[512+i] = data[i] }`, from
index `i` on, where `data` lists the bytes not yet visited.  `Memory` has
4096 cells, so the store at `512+i` needs `512 + i < 4096`. -/
def loadFrom : List Nat → Nat → Chip8 → Outcome
  | [], _, c => .ok c
  | b :: rest, i, c =>
    if 512 + i < 4096 then
      loadFrom rest (i + 1) { c with Memory := setAt c.Memory (512 + i) b }
    else
      .indexOutOfRange c

/-- The whole load loop over the bytes `data` of the ROM file. -/
def loadROM (data : List Nat) (c : Chip8) : Outcome :=
  loadFrom data 0 c

/-! ## The execution loop of `main` -/

/-- The fetch expression
`(uint16(chip8.Memory[chip8.PC]) << 8) | uint16(chip8.Memory[chip8.PC+1])`,
once both index checks have passed. -/
def fetchWord (c : Chip8) : Nat :=
  ((c.Memory c.PC <<< 8) % 65536) ||| c.Memory ((c.PC + 1) % 65536)

/-- One iteration of the `for { ... }` loop of `main`. -/
def step (c : Chip8) : Outcome :=
  if 4096 ≤ c.PC then .indexOutOfRange c
  else if 4096 ≤ (c.PC + 1) % 65536 then .indexOutOfRange c
  else
    let c := { c with Opcode := fetchWord c }
    let family := c.Opcode &&& 0xF000
    if family = 0x0000 then
      let sub := c.Opcode &&& 0x000F
      if sub = 0x0000 then
        let c := { c with Display := clearLoop (64 * 32) c.Display }
        .ok { c with PC := (c.PC + 2) % 65536 }
      else if sub = 0x000E then .ok c
      else .unknownOpcode c
    else if family = 0x1000 then
      .ok { c with PC := c.Opcode &&& 0x0FFF }
    else if family = 0x2000 then .ok c
    else if family = 0x3000 then .ok c
    else if family = 0x4000 then .ok c
    else if family = 0x5000 then .ok c
    else if family = 0x6000 then
      let v := c.Opcode >>> 8 &&& 0x000F
      let nn := (c.Opcode &&& 0x00FF) % 256
      let c := { c with V := setAt c.V v nn }
      .ok { c with PC := (c.PC + 2) % 65536 }
    else if family = 0x7000 then
      let x := c.Opcode >>> 8 &&& 0x000F
      let nn := (c.Opcode &&& 0x00FF) % 256
      let c := { c with V := setAt c.V x ((c.V x + nn) % 256) }
      .ok { c with PC := (c.PC + 2) % 65536 }
    else if family = 0x8000 then
      let sub := c.Opcode &&& 0x000F
      if sub = 0x0 then .ok c
      else if sub = 0x1 then .ok c
      else if sub = 0x2 then .ok c
      else if sub = 0x3 then .ok c
      else if sub = 0x4 then .ok c
      else if sub = 0x5 then .ok c
      else if sub = 0x6 then .ok c
      else if sub = 0x7 then .ok c
      else if sub = 0xE then .ok c
      else .unknownOpcode c
    else if family = 0x9000 then .ok c
    else if family = 0xA000 then
      let nnn := c.Opcode &&& 0x0FFF
      let c := { c with I := nnn }
      .ok { c with PC := (c.PC + 2) % 65536 }
    else if family = 0xB000 then .ok c
    else if family = 0xC000 then .ok c
    else if family = 0xD000 then
      let c := { c with V := setAt c.V 0xF 0 }
      .ok { c with PC := (c.PC + 2) % 65536 }
    else if family = 0xE000 then
      let sub := c.Opcode &&& 0x00FF
      if sub = 0x9E then .ok c
      else if sub = 0xA1 then .ok c
      else .unknownOpcode c
    else if family = 0xF000 then
      let sub := c.Opcode &&& 0x00FF
      if sub = 0x07 then .ok c
      else if sub = 0x0A then .ok c
      else if sub = 0x15 then .ok c
      else if sub = 0x18 then .ok c
      else if sub = 0x1E then .ok c
      else if sub = 0x29 then .ok c
      else if sub = 0x33 then .ok c
      else if sub = 0x55 then .ok c
      else if sub = 0x65 then .ok c
      else .unknownOpcode c
    else .unknownOpcode c

/-- The first `n` iterations of the loop; a panic ends the run. -/
def run : Nat → Chip8 → Outcome
  | 0, c => .ok c
  | n + 1, c =>
    match step c with
    | .ok d => run n d
    | .unknownOpcode d => .unknownOpcode d
    | .indexOutOfRange d => .indexOutOfRange d

/-! ## Predicates on outcomes -/

/-- An outcome that, if it is an unknown-opcode panic, carries the machine `d`. -/
def HaltsWith (d : Chip8) (o : Outcome) : Prop :=
  o.kind = Kind.unknownOpcode → o.state = d

/-- The outcomes one iteration of the loop can end in from the machine `c`:
an index panic before any store, an unknown-opcode panic or an empty `case`
after the store to `Opcode`, or one of the five `case` bodies with
statements (clear-screen, `1NNN`, a register store followed by `PC += 2`,
`ANNN`). -/
def StepShape (c : Chip8) (o : Outcome) : Prop :=
  o = .indexOutOfRange c ∨
  o = .unknownOpcode { c with Opcode := fetchWord c } ∨
  o = .ok { c with Opcode := fetchWord c } ∨
  o = .ok { c with
      Opcode := fetchWord c
      Display := clearLoop (64 * 32) c.Display
      PC := (c.PC + 2) % 65536 } ∨
  o = .ok { c with Opcode := fetchWord c, PC := fetchWord c &&& 0x0FFF } ∨
  (∃ x v, o = .ok { c with
      Opcode := fetchWord c
      V := setAt c.V x v
      PC := (c.PC + 2) % 65536 }) ∨
  o = .ok { c with
      Opcode := fetchWord c
      I := fetchWord c &&& 0x0FFF
      PC := (c.PC + 2) % 65536 }

/-- The words the dispatch of the loop has no `case` for: family 0 with a low
nibble other than 0 and E, family 8 with a low nibble among 8..D or F, family
E with a low byte other than 9E and A1, family F with a low byte other than
07, 0A, 15, 18, 1E, 29, 33, 55, 65. -/
def Uncovered (w : Nat) : Prop :=
  (w / 4096 % 16 = 0x0 ∧ w % 16 ≠ 0x0 ∧ w % 16 ≠ 0xE) ∨
  (w / 4096 % 16 = 0x8 ∧ 8 ≤ w % 16 ∧ w % 16 ≠ 0xE) ∨
  (w / 4096 % 16 = 0xE ∧ w % 256 ≠ 0x9E ∧ w % 256 ≠ 0xA1) ∨
  (w / 4096 % 16 = 0xF ∧ w % 256 ≠ 0x07 ∧ w % 256 ≠ 0x0A ∧ w % 256 ≠ 0x15 ∧
    w % 256 ≠ 0x18 ∧ w % 256 ≠ 0x1E ∧ w % 256 ≠ 0x29 ∧ w % 256 ≠ 0x33 ∧
    w % 256 ≠ 0x55 ∧ w % 256 ≠ 0x65)

/-- The words whose `case` in the dispatch of the loop has no statement:
family 0 with low nibble E, the families 2, 3, 4, 5, 9, B, C, family 8 with a
low nibble among 0..7 or E, family E with low byte 9E or A1, family F with
low byte 07, 0A, 15, 18, 1E, 29, 33, 55 or 65. -/
def EmptyCase (w : Nat) : Prop :=
  (w / 4096 % 16 = 0x0 ∧ w % 16 = 0xE) ∨
  (w / 4096 % 16 = 0x2 ∨ w / 4096 % 16 = 0x3 ∨ w / 4096 % 16 = 0x4 ∨
    w / 4096 % 16 = 0x5 ∨ w / 4096 % 16 = 0x9 ∨ w / 4096 % 16 = 0xB ∨
    w / 4096 % 16 = 0xC) ∨
  (w / 4096 % 16 = 0x8 ∧ (w % 16 ≤ 7 ∨ w % 16 = 0xE)) ∨
  (w / 4096 % 16 = 0xE ∧ (w % 256 = 0x9E ∨ w % 256 = 0xA1)) ∨
  (w / 4096 % 16 = 0xF ∧ (w % 256 = 0x07 ∨ w % 256 = 0x0A ∨ w % 256 = 0x15 ∨
    w % 256 = 0x18 ∨ w % 256 = 0x1E ∨ w % 256 = 0x29 ∨ w % 256 = 0x33 ∨
    w % 256 = 0x55 ∨ w % 256 = 0x65))

/-! ## Concrete machines used to evaluate the code -/

/-- The zero machine with `PC = 0x200` and the big-endian word `w` stored at
`Memory[0x200]`, `Memory[0x201]`. -/
def withWord (w : Nat) : Chip8 :=
  { Chip8.zero with
    PC := 0x200
    Memory := setAt (setAt Chip8.zero.Memory 0x200 (w / 256 % 256)) 0x201 (w % 256) }

/-- A ROM image of `0xE01` bytes, each equal to 1: one byte more than the
program space `0x200 .. 0xFFF` holds. -/
def overlongROM : List Nat := List.replicate 0xE01 1

/-- The machine `withWord 0x7102` with `V1 = 0xFF`: the word is `ADD V1, 02`. -/
def addImmMachine : Chip8 :=
  { withWord 0x7102 with V := setAt Chip8.zero.V 1 0xFF }

/-- The machine `withWord 0x8124` with `V1 = 0xF0` and `V2 = 0x20`: the word
is `ADD V1, V2` and the sum does not fit in a byte. -/
def addRegMachine : Chip8 :=
  { withWord 0x8124 with V := setAt (setAt Chip8.zero.V 1 0xF0) 2 0x20 }

/-- The machine `withWord 0x00E0` with the display cells 0 and 2047 lit. -/
def litMachine : Chip8 :=
  { withWord 0x00E0 with Display := setAt (setAt Chip8.zero.Display 0 1) 2047 1 }

/-- A machine with `PC = 0x200`, `SP = 0`, the word `0x2204` (`CALL 204`) at
`0x200` and the word `0x00EE` (`RET`) at `0x204`. -/
def callRetMachine : Chip8 :=
  { withWord 0x2204 with
    Memory := setAt (setAt (withWord 0x2204).Memory 0x204 0x00) 0x205 0xEE }

/-! ## The opcode table of the specification -/

/-- The opcode patterns of the specification table, as a predicate on a
16-bit word: `00E0`, `00EE`, `1NNN`, `2NNN`, `3XNN`, `4XNN`, `5XY0`, `6XNN`,
`7XNN`, `8XY0..8XY7`, `8XYE`, `9XY0`, `ANNN`, `BNNN`, `CXNN`, `DXYN`, `EX9E`,
`EXA1`, `FX07`, `FX0A`, `FX15`, `FX18`, `FX1E`, `FX29`, `FX33`, `FX55`,
`FX65`.  This definition follows the table, not the code. -/
def specTableMatches (w : Nat) : Bool :=
  let family := w / 4096 % 16
  let n := w % 16
  let nn := w % 256
  if family = 0x0 then w = 0x00E0 || w = 0x00EE
  else if family = 0x5 || family = 0x9 then n = 0
  else if family = 0x8 then n ≤ 7 || n = 0xE
  else if family = 0xE then nn = 0x9E || nn = 0xA1
  else if family = 0xF then
    nn = 0x07 || nn = 0x0A || nn = 0x15 || nn = 0x18 || nn = 0x1E || nn = 0x29 ||
      nn = 0x33 || nn = 0x55 || nn = 0x65
  else true

/-! ## `Chip8.Disassemble` -/

/-- The operand expression `(c.Opcode >> 8) & 0x000F`. -/
def opX (w : Nat) : Nat := w >>> 8 &&& 0x000F

/-- The operand expression `(c.Opcode >> 4) & 0x000F`. -/
def opY (w : Nat) : Nat := w >>> 4 &&& 0x000F

/-- The operand expression `c.Opcode & 0x000F`. -/
def opN (w : Nat) : Nat := w &&& 0x000F

/-- The operand expression `byte(c.Opcode & 0x00FF)`. -/
def opNN (w : Nat) : Nat := (w &&& 0x00FF) % 256

/-- The operand expression `c.Opcode & 0x0FFF`. -/
def opNNN (w : Nat) : Nat := w &&& 0x0FFF

/-- The dispatch key `c.Opcode & 0xF000` of both switches. -/
def opKey (w : Nat) : Nat := w &&& 0xF000

/-- The text `Disassemble` prints after the address and the raw word: one
constructor for each `fmt.Println` / `fmt.Printf` call of the switch, carrying
the arguments of the call in their order. -/
inductive Mnemonic where
  /-- The output `CLS`. -/
  | CLS
  /-- The output `RET`. -/
  | RET
  /-- The format `SYS %X`. -/
  | SYS (nnn : Nat)
  /-- The format `JP %X`. -/
  | JP (nnn : Nat)
  /-- The format `CALL %X`. -/
  | CALL (nnn : Nat)
  /-- The format `SE V%X, %X`. -/
  | SE (x nn : Nat)
  /-- The format `SNE V%X, %X`. -/
  | SNE (x nn : Nat)
  /-- The format `SE V%X, V%X`. -/
  | SEV (x y : Nat)
  /-- The format `LD V%X, %X`. -/
  | LD (v nn : Nat)
  /-- The format `ADD V%X, %X`. -/
  | ADD (x nn : Nat)
  /-- The format `LD V%X, V%X`. -/
  | LDV (x y : Nat)
  /-- The format `OR V%X, V%X`. -/
  | OR (x y : Nat)
  /-- The format `AND V%X, V%X`. -/
  | AND (x y : Nat)
  /-- The format `XOR V%X, V%X`. -/
  | XOR (x y : Nat)
  /-- The format `ADD V%X, V%X`. -/
  | ADDV (x y : Nat)
  /-- The format `SUB V%X, V%X`. -/
  | SUB (x y : Nat)
  /-- The format `SHR V%X`. -/
  | SHR (x : Nat)
  /-- The format `SUBN V%X, V%X`. -/
  | SUBN (x y : Nat)
  /-- The format `SHL V%X`. -/
  | SHL (x : Nat)
  /-- The format `SNE V%X, V%X`. -/
  | SNEV (x y : Nat)
  /-- The format `LD I, %X`. -/
  | LDI (nnn : Nat)
  /-- The format `JP V0, %X`. -/
  | JPV0 (nnn : Nat)
  /-- The format `RND V%X, %X`. -/
  | RND (x nn : Nat)
  /-- The format `DRW V%X, V%X, %X`. -/
  | DRW (x y n : Nat)
  /-- The format `SKP V%X`. -/
  | SKP (x : Nat)
  /-- The format `SKNP V%X`. -/
  | SKNP (x : Nat)
  /-- The format `LD V%X, DT`. -/
  | LDVDT (x : Nat)
  /-- The format `LD V%X, K`. -/
  | LDVK (x : Nat)
  /-- The format `LD DT, V%X`. -/
  | LDDTV (x : Nat)
  /-- The format `LD ST, V%X`. -/
  | LDSTV (x : Nat)
  /-- The format `ADD I, V%X`. -/
  | ADDI (x : Nat)
  /-- The format `LD F, V%X`. -/
  | LDF (x : Nat)
  /-- The format `LD B, V%X`. -/
  | LDB (x : Nat)
  /-- The format `LD [I], V%X`. -/
  | LDIV (x : Nat)
  /-- The format `LD V%X, [I]`. -/
  | LDVI (x : Nat)
  /-- The format `UNKN %X`. -/
  | UNKN (w : Nat)
  deriving DecidableEq, Repr

/-- One output line of `Disassemble`: the two arguments of the header
`fmt.Printf("%-4X %4X\t", c.PC, c.Opcode)` and the text that follows. -/
structure Line where
  addr : Nat
  word : Nat
  text : Mnemonic
  deriving DecidableEq, Repr

/-- The big-endian word `(uint16(m[pc]) << 8) | uint16(m[pc+1])`. -/
def wordAt (m : Nat → Nat) (pc : Nat) : Nat :=
  ((m pc <<< 8) % 65536) ||| m ((pc + 1) % 65536)

/-- The `switch c.Opcode & 0xF000` of `Disassemble`: the text printed and the
receiver variable `c` after the switch. -/
def disSwitch (c : Chip8) : Mnemonic × Chip8 :=
  let family := opKey c.Opcode
  if family = 0x0000 then
    let sub := c.Opcode &&& 0x00F0
    if sub = 0x00E0 then (.CLS, c)
    else if sub = 0x00EE then (.RET, c)
    else (.SYS (opNNN c.Opcode), c)
  else if family = 0x1000 then
    let c := { c with PC := c.Opcode &&& 0x0FFF }
    (.JP c.PC, c)
  else if family = 0x2000 then (.CALL (opNNN c.Opcode), c)
  else if family = 0x3000 then (.SE (opX c.Opcode) (opNN c.Opcode), c)
  else if family = 0x4000 then (.SNE (opX c.Opcode) (opNN c.Opcode), c)
  else if family = 0x5000 then (.SEV (opX c.Opcode) (opY c.Opcode), c)
  else if family = 0x6000 then (.LD (opX c.Opcode) (opNN c.Opcode), c)
  else if family = 0x7000 then (.ADD (opX c.Opcode) (opNN c.Opcode), c)
  else if family = 0x8000 then
    let sub := c.Opcode &&& 0x000F
    if sub = 0x0 then (.LDV (opX c.Opcode) (opY c.Opcode), c)
    else if sub = 0x1 then (.OR (opX c.Opcode) (opY c.Opcode), c)
    else if sub = 0x2 then (.AND (opX c.Opcode) (opY c.Opcode), c)
    else if sub = 0x3 then (.XOR (opX c.Opcode) (opY c.Opcode), c)
    else if sub = 0x4 then (.ADDV (opX c.Opcode) (opY c.Opcode), c)
    else if sub = 0x5 then (.SUB (opX c.Opcode) (opY c.Opcode), c)
    else if sub = 0x6 then (.SHR (opX c.Opcode), c)
    else if sub = 0x7 then (.SUBN (opX c.Opcode) (opY c.Opcode), c)
    else if sub = 0xE then (.SHL (opX c.Opcode), c)
    else (.UNKN c.Opcode, c)
  else if family = 0x9000 then (.SNEV (opX c.Opcode) (opY c.Opcode), c)
  else if family = 0xA000 then (.LDI (opNNN c.Opcode), c)
  else if family = 0xB000 then (.JPV0 (opNNN c.Opcode), c)
  else if family = 0xC000 then (.RND (opX c.Opcode) (opNN c.Opcode), c)
  else if family = 0xD000 then
    (.DRW (opX c.Opcode) (opY c.Opcode) (opN c.Opcode), c)
  else if family = 0xE000 then
    let sub := c.Opcode &&& 0x00FF
    if sub = 0x9E then (.SKP (opX c.Opcode), c)
    else if sub = 0xA1 then (.SKNP (opX c.Opcode), c)
    else (.UNKN c.Opcode, c)
  else if family = 0xF000 then
    let sub := c.Opcode &&& 0x00FF
    if sub = 0x07 then (.LDVDT (opX c.Opcode), c)
    else if sub = 0x0A then (.LDVK (opX c.Opcode), c)
    else if sub = 0x15 then (.LDDTV (opX c.Opcode), c)
    else if sub = 0x18 then (.LDSTV (opX c.Opcode), c)
    else if sub = 0x1E then (.ADDI (opX c.Opcode), c)
    else if sub = 0x29 then (.LDF (opX c.Opcode), c)
    else if sub = 0x33 then (.LDB (opX c.Opcode), c)
    else if sub = 0x55 then (.LDIV (opX c.Opcode), c)
    else if sub = 0x65 then (.LDVI (opX c.Opcode), c)
    else (.UNKN c.Opcode, c)
  else (.UNKN c.Opcode, c)

/-- The statements of `Disassemble(program, pc)`, run on the receiver
variable `c`: the line printed and `c` at return, or `none` when one of the
two index checks of `c.Memory[pc]`, `c.Memory[pc+1]` fails.  The parameter
`program` is not used by the source. -/
def DisassembleBody (c : Chip8) (_program : Nat) (pc : Nat) : Option (Line × Chip8) :=
  if 4096 ≤ pc then none
  else if 4096 ≤ (pc + 1) % 65536 then none
  else
    let c := { c with Opcode := wordAt c.Memory pc }
    let addr := c.PC
    let word := c.Opcode
    let r := disSwitch c
    some ({ addr := addr, word := word, text := r.1 }, r.2)

/-- The call `m.Disassemble(program, pc)` seen from the caller: the line
printed and the caller's machine after the call.  The method is declared
`func (c Chip8) Disassemble(...)`, with a value receiver, so the body works
on a copy of `m` that is dropped at return. -/
def Disassemble (m : Chip8) (program : Nat) (pc : Nat) : Option (Line × Chip8) :=
  match DisassembleBody m program pc with
  | none => none
  | some r => some (r.1, m)

/-! ## The `-d` branch of `main` -/

/-- What the `-d` branch writes to standard output. -/
inductive Printed where
  /-- The output of `fmt.Println(chip8Disassebmler.PC)`. -/
  | number (n : Nat)
  /-- One line written by a call of `Disassemble`. -/
  | instr (l : Line)
  deriving DecidableEq, Repr

/-- The loop
`for i := range program { chip8Disassebmler.Memory[512+i] = data[i] }`, from
index `i` on; the first argument lists the bytes of `program` not yet
visited, `data` is the default ROM read earlier in `main`. -/
def copyFrom (data : List Nat) : List Nat → Nat → Chip8 → Outcome
  | [], _, c => .ok c
  | _ :: rest, i, c =>
    if 512 + i < 4096 then
      match data[i]? with
      | some b => copyFrom data rest (i + 1) { c with Memory := setAt c.Memory (512 + i) b }
      | none => .indexOutOfRange c
    else
      .indexOutOfRange c

/-- The loop
`for _, p := range Memory[PC : 512+len(program)] { Disassemble(p, PC); PC += 2 }`
from element `j` of the slice on, with `n` elements still to visit: the lines
printed and how the loop ends. -/
def disLoop : Nat → Nat → Chip8 → List Line × Outcome
  | 0, _, c => ([], .ok c)
  | n + 1, j, c =>
    match Disassemble c (c.Memory (512 + j)) c.PC with
    | none => ([], .indexOutOfRange c)
    | some r =>
      let c := { r.2 with PC := (r.2.PC + 2) % 65536 }
      let rest := disLoop n (j + 1) c
      (r.1 :: rest.1, rest.2)

/-- The `-d` branch of `main` up to `os.Exit(0)`, for the default ROM bytes
`data` and the bytes `program` of the file named by `-d`: everything printed
and how the branch ends. -/
def disassembleBranch (data program : List Nat) : List Printed × Outcome :=
  let d := Chip8.zero
  let d := Init d
  let out := [Printed.number d.PC]
  let d := { d with PC := 512 }
  match copyFrom data program 0 d with
  | .ok d =>
    if 512 + program.length ≤ 4096 then
      let r := disLoop program.length 0 d
      (out ++ r.1.map Printed.instr, r.2)
    else
      (out, .indexOutOfRange d)
  | .unknownOpcode d => (out, .unknownOpcode d)
  | .indexOutOfRange d => (out, .indexOutOfRange d)

/-! ## The standard hexadecimal font -/

/-- The standard CHIP-8 hexadecimal font, glyph by glyph (digits 0 to F, five
rows each, the four pixels of a row in the high nibble).  This table is the
reference the specification names; it is not read off `chip8FontSet`. -/
def standardFont : List (List Nat) :=
  [ [0xF0, 0x90, 0x90, 0x90, 0xF0],
    [0x20, 0x60, 0x20, 0x20, 0x70],
    [0xF0, 0x10, 0xF0, 0x80, 0xF0],
    [0xF0, 0x10, 0xF0, 0x10, 0xF0],
    [0x90, 0x90, 0xF0, 0x10, 0x10],
    [0xF0, 0x80, 0xF0, 0x10, 0xF0],
    [0xF0, 0x80, 0xF0, 0x90, 0xF0],
    [0xF0, 0x10, 0x20, 0x40, 0x40],
    [0xF0, 0x90, 0xF0, 0x90, 0xF0],
    [0xF0, 0x90, 0xF0, 0x10, 0xF0],
    [0xF0, 0x90, 0xF0, 0x90, 0x90],
    [0xE0, 0x90, 0xE0, 0x90, 0xE0],
    [0xF0, 0x80, 0x80, 0x80, 0xF0],
    [0xE0, 0x90, 0x90, 0x90, 0xE0],
    [0xF0, 0x80, 0xF0, 0x80, 0xF0],
    [0xF0, 0x80, 0xF0, 0x80, 0x80] ]

/-- Glyph `d` of `chip8FontSet`: the five bytes at offsets `5d .. 5d+4`. -/
def glyph (d : Nat) : List Nat :=
  (chip8FontSet.drop (5 * d)).take 5

/-! ## More concrete machines -/

/-- A machine with an all-zero display, `PC = 0x200`, the word `0xD011`
(`DRW V0, V1, 1`) at `0x200` and again at `0x202`, `I = 0x300` and the
one-row sprite `0x80` at `Memory[0x300]`; `V0 = V1 = 0`. -/
def spriteMachine : Chip8 :=
  { Chip8.zero with
    PC := 0x200
    I := 0x300
    Memory := setAt (setAt (setAt (setAt (setAt Chip8.zero.Memory 0x200 0xD0) 0x201 0x11)
      0x202 0xD0) 0x203 0x11) 0x300 0x80 }

/-- The machine `withWord 0x0000` with the display cells 0 and 2047 lit. -/
def litZeroMachine : Chip8 :=
  { withWord 0x0000 with Display := setAt (setAt Chip8.zero.Display 0 1) 2047 1 }

/-- A machine with `PC = 0xFFE` and the word `0x6000` (`LD V0, 0`) in the
last two memory cells. -/
def lastWordMachine : Chip8 :=
  { Chip8.zero with
    PC := 0xFFE
    Memory := setAt (setAt Chip8.zero.Memory 0xFFE 0x60) 0xFFF 0x00 }

/-! ## Auxiliary facts: arrays and loops -/

theorem setAt_same (a : Nat → Nat) (i v : Nat) : setAt a i v i = v := by
  simp [setAt]

theorem setAt_other (a : Nat → Nat) (i v j : Nat) (h : j ≠ i) : setAt a i v j = a j := by
  simp [setAt, h]

theorem clearLoop_below (n : Nat) (a : Nat → Nat) (j : Nat) (h : j < n) :
    clearLoop n a j = 0 := by
  induction n with
  | zero => omega
  | succ k ih =>
    by_cases hj : j = k
    · subst hj
      simp [clearLoop, setAt]
    · have hlt : j < k := by omega
      simp [clearLoop, setAt, hj, ih hlt]

theorem clearLoop_above (n : Nat) (a : Nat → Nat) (j : Nat) (h : n ≤ j) :
    clearLoop n a j = a j := by
  induction n with
  | zero => rfl
  | succ k ih =>
    have hj : j ≠ k := by omega
    have hk : k ≤ j := by omega
    simp [clearLoop, setAt, hj, ih hk]

theorem Chip8.withMemory_self (c : Chip8) (f : Nat → Nat) (h : ∀ a, f a = c.Memory a) :
    c = { c with Memory := f } := by
  have hf : f = c.Memory := funext h
  subst hf
  rfl

/-- Closed form of the machine the load loop leaves when every store is in
range: the bytes visited land at `512 + i ..`, nothing else moves. -/
theorem loadFrom_fits (data : List Nat) (i : Nat) (c : Chip8)
    (h : 512 + i + data.length ≤ 4096) :
    loadFrom data i c = .ok { c with
      Memory := fun a =>
        if 512 + i ≤ a ∧ a < 512 + i + data.length then data.getD (a - (512 + i)) 0
        else c.Memory a } := by
  induction data generalizing i c with
  | nil =>
    rw [loadFrom]
    congr 1
    apply Chip8.withMemory_self
    intro a
    have hin : ¬ (512 + i ≤ a ∧ a < 512 + i + ([] : List Nat).length) := by
      simp only [List.length_nil]; omega
    simp only [if_neg hin]
  | cons b rest ih =>
    have hlen : (b :: rest).length = rest.length + 1 := rfl
    have hi : 512 + i < 4096 := by omega
    have hrest : 512 + (i + 1) + rest.length ≤ 4096 := by omega
    rw [loadFrom, if_pos hi, ih (i + 1) _ hrest]
    congr 2
    funext a
    by_cases ha : a = 512 + i
    · subst ha
      simp [setAt]
    · by_cases hin : 512 + (i + 1) ≤ a ∧ a < 512 + (i + 1) + rest.length
      · have hin2 : 512 + i ≤ a ∧ a < 512 + i + (rest.length + 1) := by omega
        have hsub : a - (512 + i) = (a - (512 + (i + 1))) + 1 := by omega
        simp only [if_pos hin, hlen, if_pos hin2]
        rw [hsub, List.getD_cons_succ]
      · have hin2 : ¬ (512 + i ≤ a ∧ a < 512 + i + (rest.length + 1)) := by omega
        simp only [if_neg hin, hlen, if_neg hin2]
        simp [setAt, ha]

/-- Closed form of the machine at the panic of the load loop when the bytes
do not fit: the stores up to cell 4095 have been made. -/
theorem loadFrom_overflows (data : List Nat) (i : Nat) (c : Chip8)
    (hi : 512 + i ≤ 4096) (h : 4096 < 512 + i + data.length) :
    loadFrom data i c = .indexOutOfRange { c with
      Memory := fun a =>
        if 512 + i ≤ a ∧ a < 4096 then data.getD (a - (512 + i)) 0
        else c.Memory a } := by
  induction data generalizing i c with
  | nil => simp at h; omega
  | cons b rest ih =>
    have hlen : (b :: rest).length = rest.length + 1 := rfl
    by_cases hlt : 512 + i < 4096
    · have hi2 : 512 + (i + 1) ≤ 4096 := by omega
      have hrest : 4096 < 512 + (i + 1) + rest.length := by omega
      rw [loadFrom, if_pos hlt, ih (i + 1) _ hi2 hrest]
      congr 2
      funext a
      by_cases ha : a = 512 + i
      · subst ha
        simp [setAt, hlt]
      · by_cases hin : 512 + (i + 1) ≤ a ∧ a < 4096
        · have hin2 : 512 + i ≤ a ∧ a < 4096 := by omega
          have hsub : a - (512 + i) = (a - (512 + (i + 1))) + 1 := by omega
          simp only [if_pos hin, if_pos hin2]
          rw [hsub, List.getD_cons_succ]
        · have hin2 : ¬ (512 + i ≤ a ∧ a < 4096) := by omega
          simp only [if_neg hin, if_neg hin2]
          simp [setAt, ha]
    · rw [loadFrom, if_neg hlt]
      congr 1
      apply Chip8.withMemory_self
      intro a
      have hin2 : ¬ (512 + i ≤ a ∧ a < 4096) := by omega
      simp only [if_neg hin2]

/-! ## Auxiliary facts: the operand masks -/

theorem and_F000 (w : Nat) : w &&& 0xF000 = (w / 4096 % 16) * 4096 := by
  apply Nat.eq_of_testBit_eq
  intro i
  have h : (w / 4096 % 16) * 4096 = ((w >>> 12) % 2 ^ 4) <<< 12 := by
    rw [Nat.shiftLeft_eq, Nat.shiftRight_eq_div_pow]; norm_num
  have h2 : (0xF000 : Nat) = (2 ^ 4 - 1) <<< 12 := by decide
  rw [h, h2]
  simp only [Nat.testBit_and, Nat.testBit_shiftLeft, Nat.testBit_mod_two_pow,
    Nat.testBit_shiftRight, Nat.testBit_two_pow_sub_one]
  by_cases h12 : 12 ≤ i
  · by_cases h16 : i - 12 < 4
    · simp [h12, h16]
    · simp [h12, h16]
  · simp [h12]

theorem and_0FFF (w : Nat) : w &&& 0x0FFF = w % 4096 := by
  have h : (0x0FFF : Nat) = 2 ^ 12 - 1 := by norm_num
  rw [h, Nat.and_pow_two_sub_one_eq_mod]

theorem and_00FF (w : Nat) : w &&& 0x00FF = w % 256 := by
  have h : (0x00FF : Nat) = 2 ^ 8 - 1 := by norm_num
  rw [h, Nat.and_pow_two_sub_one_eq_mod]

theorem and_000F (w : Nat) : w &&& 0x000F = w % 16 := by
  have h : (0x000F : Nat) = 2 ^ 4 - 1 := by norm_num
  rw [h, Nat.and_pow_two_sub_one_eq_mod]

theorem shr8_and_000F (w : Nat) : w >>> 8 &&& 0x000F = w / 256 % 16 := by
  rw [and_000F, Nat.shiftRight_eq_div_pow]

/-- With `PC ≤ 0xFFE` both index checks of the fetch pass. -/
theorem fetch_in_range (c : Chip8) (hpc : c.PC ≤ 0xFFE) :
    ¬ 4096 ≤ c.PC ∧ ¬ 4096 ≤ (c.PC + 1) % 65536 ∧ (c.PC + 2) % 65536 = c.PC + 2 := by
  refine ⟨by omega, by omega, by omega⟩

/-! ## Auxiliary facts: the dispatch, family by family -/

theorem step_family_0_clear (c : Chip8) (hpc : c.PC ≤ 0xFFE)
    (hf : fetchWord c / 4096 % 16 = 0) (hs : fetchWord c % 16 = 0) :
    step c = .ok { c with
      Opcode := fetchWord c
      Display := clearLoop (64 * 32) c.Display
      PC := c.PC + 2 } := by
  obtain ⟨h1, h2, h3⟩ := fetch_in_range c hpc
  simp [step, h1, h2, h3, and_F000, and_000F, hf, hs]

theorem step_family_6 (c : Chip8) (hpc : c.PC ≤ 0xFFE)
    (hf : fetchWord c / 4096 % 16 = 6) :
    step c = .ok { c with
      Opcode := fetchWord c
      V := setAt c.V (fetchWord c / 256 % 16) (fetchWord c % 256)
      PC := c.PC + 2 } := by
  obtain ⟨h1, h2, h3⟩ := fetch_in_range c hpc
  simp [step, h1, h2, h3, and_F000, and_00FF, shr8_and_000F, hf]

theorem step_family_7 (c : Chip8) (hpc : c.PC ≤ 0xFFE)
    (hf : fetchWord c / 4096 % 16 = 7) :
    step c = .ok { c with
      Opcode := fetchWord c
      V := setAt c.V (fetchWord c / 256 % 16)
        ((c.V (fetchWord c / 256 % 16) + fetchWord c % 256) % 256)
      PC := c.PC + 2 } := by
  obtain ⟨h1, h2, h3⟩ := fetch_in_range c hpc
  simp [step, h1, h2, h3, and_F000, and_00FF, shr8_and_000F, hf]

/-! ## C1: `Init` and the caller's machine -/

/-- C1.  Evaluation of the code at the machine `Chip8{}` that `main` builds:
after the call `chip8.Init()` the caller's machine still has `PC = 0` and
`Memory[0] = 0`, whereas the claim asks for `PC = 0x200` and
`Memory[0] = chip8FontSet[0] = 0xF0`.  The body of `Init` does establish both
values, but on the receiver copy, which the value receiver discards. -/
theorem Init_leaves_caller_machine :
    (Init Chip8.zero).PC = 0 ∧ (Init Chip8.zero).PC ≠ 0x200 ∧
    (Init Chip8.zero).Memory 0 = 0 ∧ chip8FontSet.getD 0 0 = 0xF0 ∧
    (Init Chip8.zero).Memory 0 ≠ chip8FontSet.getD 0 0 ∧
    (InitBody Chip8.zero).PC = 0x200 ∧
    (InitBody Chip8.zero).Memory 0 = chip8FontSet.getD 0 0 := by
  refine ⟨rfl, by decide, rfl, rfl, by decide, rfl, rfl⟩

/-! ## C2, C3: the ROM load loop -/

/-- C2.  For every machine and every ROM of at most `0xE00` bytes the load
loop of `main` runs to its end with `Memory[0x200 + i] = rom[i]` for every
`i < len(rom)`; the memory below `0x200` and from `0x200 + len(rom)` on, and
every other field of the machine, are unchanged. -/
theorem loadROM_writes_program (c : Chip8) (rom : List Nat) (h : rom.length ≤ 0xE00) :
    (loadROM rom c).kind = Kind.ok ∧
    (∀ i (hi : i < rom.length), (loadROM rom c).state.Memory (0x200 + i) = rom[i]) ∧
    (∀ a, a < 0x200 → (loadROM rom c).state.Memory a = c.Memory a) ∧
    (∀ a, 0x200 + rom.length ≤ a → (loadROM rom c).state.Memory a = c.Memory a) ∧
    (loadROM rom c).state.Opcode = c.Opcode ∧
    (loadROM rom c).state.I = c.I ∧
    (loadROM rom c).state.PC = c.PC ∧
    (loadROM rom c).state.V = c.V ∧
    (loadROM rom c).state.Stack = c.Stack ∧
    (loadROM rom c).state.SP = c.SP ∧
    (loadROM rom c).state.Display = c.Display ∧
    (loadROM rom c).state.Keypad = c.Keypad ∧
    (loadROM rom c).state.DelayTimer = c.DelayTimer := by
  have hfit : 512 + 0 + rom.length ≤ 4096 := by
    simp only [Nat.add_zero]; omega
  have hload := loadFrom_fits rom 0 c hfit
  simp only [Nat.add_zero] at hload
  unfold loadROM
  rw [hload]
  refine ⟨rfl, ?_, ?_, ?_, rfl, rfl, rfl, rfl, rfl, rfl, rfl, rfl, rfl⟩
  · intro i hi
    have hin : 512 ≤ 0x200 + i ∧ 0x200 + i < 512 + rom.length := by omega
    have hsub : 0x200 + i - 512 = i := by omega
    simp only [Outcome.state, if_pos hin, hsub]
    exact List.getD_eq_getElem rom 0 hi
  · intro a ha
    have hin : ¬ (512 ≤ a ∧ a < 512 + rom.length) := by omega
    simp only [Outcome.state, if_neg hin]
  · intro a ha
    have hin : ¬ (512 ≤ a ∧ a < 512 + rom.length) := by omega
    simp only [Outcome.state, if_neg hin]

/-- C2, at a concrete input: the two-byte ROM `00 E0` loaded into the zero
machine. -/
theorem loadROM_writes_program_witness :
    [0x00, 0xE0].length ≤ 0xE00 ∧
    (loadROM [0x00, 0xE0] Chip8.zero).kind = Kind.ok ∧
    (loadROM [0x00, 0xE0] Chip8.zero).state.Memory 0x201 = 0xE0 ∧
    (loadROM [0x00, 0xE0] Chip8.zero).state.PC = 0 :=
  have h := loadROM_writes_program Chip8.zero [0x00, 0xE0] (by decide)
  ⟨by decide, h.1, h.2.1 1 (by decide), h.2.2.2.2.2.2.1⟩

/-- C3, the claim refuted.  Loading the `0xE01`-byte ROM `overlongROM` into
the zero machine fails with an index panic, and at that moment
`Memory[0x200]` holds the ROM byte 1 where it held 0 before: the memory is
not the memory before the load. -/
theorem loadROM_overlong_changes_memory :
    0xE00 < overlongROM.length ∧
    (loadROM overlongROM Chip8.zero).kind = Kind.indexOutOfRange ∧
    (loadROM overlongROM Chip8.zero).state.Memory 0x200 = 1 ∧
    Chip8.zero.Memory 0x200 = 0 ∧
    ¬ (∀ a, a < 4096 →
        (loadROM overlongROM Chip8.zero).state.Memory a = Chip8.zero.Memory a) := by
  have hlen : overlongROM.length = 0xE01 := List.length_replicate 0xE01 1
  have hover : 4096 < 512 + 0 + overlongROM.length := by rw [hlen]; decide
  have hload := loadFrom_overflows overlongROM 0 Chip8.zero (by decide) hover
  have hmem : (loadROM overlongROM Chip8.zero).state.Memory 0x200 = 1 := by
    unfold loadROM
    rw [hload]
    have hin : 512 + 0 ≤ 0x200 ∧ 0x200 < 4096 := by decide
    simp only [Outcome.state, if_pos hin]
    rfl
  refine ⟨by rw [hlen]; decide, ?_, hmem, rfl, ?_⟩
  · unfold loadROM
    rw [hload]
    rfl
  · intro hall
    have h0 := hall 0x200 (by decide)
    rw [hmem] at h0
    exact absurd h0 (by decide)

/-- C3, amended.  For every machine and every ROM of more than `0xE00` bytes
the load loop fails with an index panic, and at that moment
`Memory[0x200 + i] = rom[i]` for every `i < 0xE00`, while the memory below
`0x200` and every other field of the machine are as before the load. -/
theorem loadROM_overlong_fills_program_space (c : Chip8) (rom : List Nat)
    (h : 0xE00 < rom.length) :
    (loadROM rom c).kind = Kind.indexOutOfRange ∧
    (∀ i (hi : i < rom.length), i < 0xE00 →
      (loadROM rom c).state.Memory (0x200 + i) = rom[i]) ∧
    (∀ a, a < 0x200 → (loadROM rom c).state.Memory a = c.Memory a) ∧
    (loadROM rom c).state.Opcode = c.Opcode ∧
    (loadROM rom c).state.I = c.I ∧
    (loadROM rom c).state.PC = c.PC ∧
    (loadROM rom c).state.V = c.V ∧
    (loadROM rom c).state.Stack = c.Stack ∧
    (loadROM rom c).state.SP = c.SP ∧
    (loadROM rom c).state.Display = c.Display ∧
    (loadROM rom c).state.Keypad = c.Keypad ∧
    (loadROM rom c).state.DelayTimer = c.DelayTimer := by
  have hover : 4096 < 512 + 0 + rom.length := by
    simp only [Nat.add_zero]; omega
  have hload := loadFrom_overflows rom 0 c (by decide) hover
  simp only [Nat.add_zero] at hload
  unfold loadROM
  rw [hload]
  refine ⟨rfl, ?_, ?_, rfl, rfl, rfl, rfl, rfl, rfl, rfl, rfl, rfl⟩
  · intro i hi hlt
    have hin : 512 ≤ 0x200 + i ∧ 0x200 + i < 4096 := by omega
    have hsub : 0x200 + i - 512 = i := by omega
    simp only [Outcome.state, if_pos hin, hsub]
    exact List.getD_eq_getElem rom 0 hi
  · intro a ha
    have hin : ¬ (512 ≤ a ∧ a < 4096) := by omega
    simp only [Outcome.state, if_neg hin]

/-- C3 amended, at a concrete input: the `0xE01`-byte ROM and the zero
machine. -/
theorem loadROM_overlong_fills_program_space_witness :
    0xE00 < overlongROM.length ∧
    (loadROM overlongROM Chip8.zero).kind = Kind.indexOutOfRange ∧
    (loadROM overlongROM Chip8.zero).state.PC = 0 :=
  have hlen : 0xE00 < overlongROM.length := by
    rw [overlongROM, List.length_replicate]; decide
  have h := loadROM_overlong_fills_program_space Chip8.zero overlongROM hlen
  ⟨hlen, h.1, h.2.2.2.2.2.1⟩

/-! ## C4, C5: unknown opcodes -/

/-- C4, the claim refuted.  The words `0x0000`, `0x0120` and `0x5121` match no
pattern of the specification table, and on a machine with `PC = 0x200` that
fetches them one iteration of the loop runs to its end instead of halting:
the first two execute as clear-screen (`PC` becomes `0x202`), the third falls
into the empty `case 0x5000`. -/
theorem table_miss_runs_on :
    specTableMatches 0x0000 = false ∧ fetchWord (withWord 0x0000) = 0x0000 ∧
    (step (withWord 0x0000)).kind = Kind.ok ∧ (step (withWord 0x0000)).state.PC = 0x202 ∧
    specTableMatches 0x0120 = false ∧ fetchWord (withWord 0x0120) = 0x0120 ∧
    (step (withWord 0x0120)).kind = Kind.ok ∧ (step (withWord 0x0120)).state.PC = 0x202 ∧
    specTableMatches 0x5121 = false ∧ fetchWord (withWord 0x5121) = 0x5121 ∧
    (step (withWord 0x5121)).kind = Kind.ok ∧ (step (withWord 0x5121)).state.PC = 0x200 := by
  refine ⟨by decide, by decide, by decide, by decide, by decide, by decide, by decide,
    by decide, by decide, by decide, by decide, by decide⟩

/-- C4, amended.  For every machine with `PC ≤ 0xFFE` whose fetched word is
one the dispatch of `main` has no case for (family 0 with a low nibble other
than 0 and E, family 8 with a low nibble among 8..D or F, family E with a low
byte other than 9E and A1, family F with a low byte other than 07, 0A, 15,
18, 1E, 29, 33, 55, 65), one iteration of the loop halts with the
unknown-opcode panic, the machine being the one before the iteration with
the fetched word stored in `Opcode`. -/
theorem step_uncovered_word_halts (c : Chip8) (hpc : c.PC ≤ 0xFFE)
    (hrej :
      (fetchWord c / 4096 % 16 = 0x0 ∧ fetchWord c % 16 ≠ 0x0 ∧ fetchWord c % 16 ≠ 0xE) ∨
      (fetchWord c / 4096 % 16 = 0x8 ∧ 8 ≤ fetchWord c % 16 ∧ fetchWord c % 16 ≠ 0xE) ∨
      (fetchWord c / 4096 % 16 = 0xE ∧ fetchWord c % 256 ≠ 0x9E ∧
        fetchWord c % 256 ≠ 0xA1) ∨
      (fetchWord c / 4096 % 16 = 0xF ∧
        fetchWord c % 256 ∉ [0x07, 0x0A, 0x15, 0x18, 0x1E, 0x29, 0x33, 0x55, 0x65])) :
    step c = Outcome.unknownOpcode { c with Opcode := fetchWord c } := by
  obtain ⟨h1, h2, _⟩ := fetch_in_range c hpc
  rcases hrej with ⟨hf, hs0, hsE⟩ | ⟨hf, hs8, hsE⟩ | ⟨hf, hs9E, hsA1⟩ | ⟨hf, hs⟩
  · simp [step, h1, h2, and_F000, and_000F, hf, hs0, hsE]
  · have e0 : fetchWord c % 16 ≠ 0 := by omega
    have e1 : fetchWord c % 16 ≠ 1 := by omega
    have e2 : fetchWord c % 16 ≠ 2 := by omega
    have e3 : fetchWord c % 16 ≠ 3 := by omega
    have e4 : fetchWord c % 16 ≠ 4 := by omega
    have e5 : fetchWord c % 16 ≠ 5 := by omega
    have e6 : fetchWord c % 16 ≠ 6 := by omega
    have e7 : fetchWord c % 16 ≠ 7 := by omega
    simp [step, h1, h2, and_F000, and_000F, hf, e0, e1, e2, e3, e4, e5, e6, e7, hsE]
  · simp [step, h1, h2, and_F000, and_00FF, hf, hs9E, hsA1]
  · simp only [List.mem_cons, List.mem_singleton, List.not_mem_nil, not_or, or_false] at hs
    obtain ⟨k1, k2, k3, k4, k5, k6, k7, k8, k9⟩ := hs
    simp [step, h1, h2, and_F000, and_00FF, hf, k1, k2, k3, k4, k5, k6, k7, k8, k9]

/-- C4 amended, at concrete inputs: the words `0x0001`, `0x8128`, `0xE100`
and `0xF100` halt. -/
theorem step_uncovered_word_halts_witness :
    (step (withWord 0x0001)).kind = Kind.unknownOpcode ∧
    (step (withWord 0x8128)).kind = Kind.unknownOpcode ∧
    (step (withWord 0xE100)).kind = Kind.unknownOpcode ∧
    (step (withWord 0xF100)).kind = Kind.unknownOpcode :=
  ⟨congrArg Outcome.kind
      (step_uncovered_word_halts (withWord 0x0001) (by decide) (Or.inl (by decide))),
   congrArg Outcome.kind
      (step_uncovered_word_halts (withWord 0x8128) (by decide)
        (Or.inr (Or.inl (by decide)))),
   congrArg Outcome.kind
      (step_uncovered_word_halts (withWord 0xE100) (by decide)
        (Or.inr (Or.inr (Or.inl (by decide))))),
   congrArg Outcome.kind
      (step_uncovered_word_halts (withWord 0xF100) (by decide)
        (Or.inr (Or.inr (Or.inr (by decide)))))⟩

theorem haltsWith_ok (d x : Chip8) : HaltsWith d (.ok x) := by
  intro h; cases h

theorem haltsWith_index (d x : Chip8) : HaltsWith d (.indexOutOfRange x) := by
  intro h; cases h

theorem haltsWith_unknown (d : Chip8) : HaltsWith d (.unknownOpcode d) := by
  intro _; rfl

theorem haltsWith_ite (d : Chip8) (p : Prop) [Decidable p] (a b : Outcome)
    (ha : HaltsWith d a) (hb : HaltsWith d b) : HaltsWith d (if p then a else b) := by
  by_cases hp : p
  · rw [if_pos hp]; exact ha
  · rw [if_neg hp]; exact hb

/-- Every unknown-opcode panic of the loop leaves the machine of before the
iteration with only `Opcode` overwritten: each `panic` of the dispatch is
reached with no store made since the fetch. -/
theorem step_unknown_state (c : Chip8) :
    HaltsWith { c with Opcode := fetchWord c } (step c) := by
  unfold step
  repeat (first
    | exact haltsWith_ok _ _
    | exact haltsWith_index _ _
    | exact haltsWith_unknown _
    | refine haltsWith_ite _ _ _ _ ?_ ?_)

/-- C5.  Whenever one iteration of the loop halts with an unknown-opcode
panic, the registers `V`, `I`, `PC`, `SP`, `Stack`, `Memory`, `Display`,
`Keypad` and `DelayTimer` at the halt are those before the iteration. -/
theorem unknown_opcode_halt_keeps_state (c : Chip8)
    (h : (step c).kind = Kind.unknownOpcode) :
    (step c).state.V = c.V ∧
    (step c).state.I = c.I ∧
    (step c).state.PC = c.PC ∧
    (step c).state.SP = c.SP ∧
    (step c).state.Stack = c.Stack ∧
    (step c).state.Memory = c.Memory ∧
    (step c).state.Display = c.Display ∧
    (step c).state.Keypad = c.Keypad ∧
    (step c).state.DelayTimer = c.DelayTimer := by
  rw [step_unknown_state c h]
  exact ⟨rfl, rfl, rfl, rfl, rfl, rfl, rfl, rfl, rfl⟩

/-- C5, at a concrete input: the word `0x8128` on a machine with registers
`V1 = 0xF0`, `V2 = 0x20`. -/
theorem unknown_opcode_halt_keeps_state_witness :
    (step { addRegMachine with Memory := (withWord 0x8128).Memory }).kind
      = Kind.unknownOpcode ∧
    (step { addRegMachine with Memory := (withWord 0x8128).Memory }).state.V 1 = 0xF0 ∧
    (step { addRegMachine with Memory := (withWord 0x8128).Memory }).state.PC = 0x200 :=
  have hk : (step { addRegMachine with Memory := (withWord 0x8128).Memory }).kind
      = Kind.unknownOpcode := by decide
  have h := unknown_opcode_halt_keeps_state
    { addRegMachine with Memory := (withWord 0x8128).Memory } hk
  ⟨hk, congrFun h.1 1, h.2.2.1⟩

/-! ## C6, C7, C8: the implemented instructions `7XNN`, `6XNN`, `00E0` -/

/-- C6.  For every machine with `PC ≤ 0xFFE` whose fetched word is `7XNN`,
one step sets `Vx` to `(Vx + NN) mod 256`, advances `PC` by 2 and leaves every
other register unchanged (so `VF` is unchanged when `X ≠ 0xF`), as well as
`I`, `Memory`, `Display`, `Stack` and `SP`. -/
theorem step_7XNN (c : Chip8) (x nn : Nat) (hpc : c.PC ≤ 0xFFE) (hx : x < 16)
    (hnn : nn < 256) (hw : fetchWord c = 0x7000 + x * 256 + nn) :
    (step c).kind = Kind.ok ∧
    (step c).state.V x = (c.V x + nn) % 256 ∧
    (step c).state.PC = c.PC + 2 ∧
    (∀ j, j ≠ x → (step c).state.V j = c.V j) ∧
    (x ≠ 0xF → (step c).state.V 0xF = c.V 0xF) ∧
    (step c).state.I = c.I ∧
    (step c).state.Memory = c.Memory ∧
    (step c).state.Display = c.Display ∧
    (step c).state.Stack = c.Stack ∧
    (step c).state.SP = c.SP := by
  have hf : fetchWord c / 4096 % 16 = 7 := by omega
  have hX : fetchWord c / 256 % 16 = x := by omega
  have hN : fetchWord c % 256 = nn := by omega
  rw [step_family_7 c hpc hf, hX, hN]
  refine ⟨rfl, ?_, rfl, ?_, ?_, rfl, rfl, rfl, rfl, rfl⟩
  · exact setAt_same _ _ _
  · intro j hj
    exact setAt_other _ _ _ _ hj
  · intro hxF
    exact setAt_other _ _ _ _ (Ne.symm hxF)

/-- C6, at the input of the claim: `V1 = 0xFF` and the word `0x7102` give
`V1 = 0x01`, with `VF` and `PC + 2` as stated. -/
theorem step_7XNN_witness :
    addImmMachine.V 1 = 0xFF ∧
    (step addImmMachine).kind = Kind.ok ∧
    (step addImmMachine).state.V 1 = 0x01 ∧
    (step addImmMachine).state.PC = 0x202 ∧
    (step addImmMachine).state.V 0xF = addImmMachine.V 0xF :=
  have h := step_7XNN addImmMachine 1 0x02 (by decide) (by decide) (by decide) (by decide)
  ⟨rfl, h.1, h.2.1, h.2.2.1, h.2.2.2.2.1 (by decide)⟩

/-- C7.  For every machine with `PC ≤ 0xFFE` whose fetched word is `6XNN`,
one step sets `Vx = NN`, advances `PC` by 2 and leaves every other register,
`I`, `Memory`, `Display`, `Stack` and `SP` unchanged. -/
theorem step_6XNN (c : Chip8) (x nn : Nat) (hpc : c.PC ≤ 0xFFE) (hx : x < 16)
    (hnn : nn < 256) (hw : fetchWord c = 0x6000 + x * 256 + nn) :
    (step c).kind = Kind.ok ∧
    (step c).state.V x = nn ∧
    (step c).state.PC = c.PC + 2 ∧
    (∀ j, j ≠ x → (step c).state.V j = c.V j) ∧
    (step c).state.I = c.I ∧
    (step c).state.Memory = c.Memory ∧
    (step c).state.Display = c.Display ∧
    (step c).state.Stack = c.Stack ∧
    (step c).state.SP = c.SP := by
  have hf : fetchWord c / 4096 % 16 = 6 := by omega
  have hX : fetchWord c / 256 % 16 = x := by omega
  have hN : fetchWord c % 256 = nn := by omega
  rw [step_family_6 c hpc hf, hX, hN]
  refine ⟨rfl, ?_, rfl, ?_, rfl, rfl, rfl, rfl, rfl⟩
  · exact setAt_same _ _ _
  · intro j hj
    exact setAt_other _ _ _ _ hj

/-- C7, at a concrete input: the word `0x6A2B` sets `VA = 0x2B`. -/
theorem step_6XNN_witness :
    (step (withWord 0x6A2B)).kind = Kind.ok ∧
    (step (withWord 0x6A2B)).state.V 0xA = 0x2B ∧
    (step (withWord 0x6A2B)).state.PC = 0x202 ∧
    (step (withWord 0x6A2B)).state.V 0xB = 0 :=
  have h := step_6XNN (withWord 0x6A2B) 0xA 0x2B (by decide) (by decide) (by decide)
    (by decide)
  ⟨h.1, h.2.1, h.2.2.1, h.2.2.2.1 0xB (by decide)⟩

/-- C8.  For every machine with `PC ≤ 0xFFE` whose fetched word is `0x00E0`,
one step leaves all `64 * 32` display cells equal to 0, advances `PC` by 2 and
leaves `V`, `I`, `Memory`, `Stack` and `SP` unchanged. -/
theorem step_00E0 (c : Chip8) (hpc : c.PC ≤ 0xFFE) (hw : fetchWord c = 0x00E0) :
    (step c).kind = Kind.ok ∧
    (∀ i, i < 64 * 32 → (step c).state.Display i = 0) ∧
    (step c).state.PC = c.PC + 2 ∧
    (step c).state.V = c.V ∧
    (step c).state.I = c.I ∧
    (step c).state.Memory = c.Memory ∧
    (step c).state.Stack = c.Stack ∧
    (step c).state.SP = c.SP := by
  have hf : fetchWord c / 4096 % 16 = 0 := by omega
  have hs : fetchWord c % 16 = 0 := by omega
  rw [step_family_0_clear c hpc hf hs]
  refine ⟨rfl, ?_, rfl, rfl, rfl, rfl, rfl, rfl⟩
  intro i hi
  exact clearLoop_below _ _ i hi

/-- C8, at a concrete input: a machine with the display cells 0 and 2047
lit. -/
theorem step_00E0_witness :
    litMachine.Display 2047 = 1 ∧
    (step litMachine).kind = Kind.ok ∧
    (step litMachine).state.Display 0 = 0 ∧
    (step litMachine).state.Display 2047 = 0 ∧
    (step litMachine).state.PC = 0x202 :=
  have h := step_00E0 litMachine (by decide) (by decide)
  ⟨rfl, h.1, h.2.1 0 (by decide), h.2.1 2047 (by decide), h.2.2.1⟩

/-! ## C9, C10: instructions whose `case` is empty -/

/-- C9.  Evaluation of the code at `V1 = 0xF0`, `V2 = 0x20` and the word
`0x8124`: the step ends with `V1 = 0xF0`, `VF = 0` and `PC = 0x200`, whereas
the claim asks for `V1 = 0x10`, `VF = 1` and `PC = 0x202`. -/
theorem step_8XY4_leaves_registers :
    addRegMachine.PC = 0x200 ∧ fetchWord addRegMachine = 0x8124 ∧
    addRegMachine.V 1 = 0xF0 ∧ addRegMachine.V 2 = 0x20 ∧
    (step addRegMachine).kind = Kind.ok ∧
    (step addRegMachine).state.V 1 = 0xF0 ∧
    (step addRegMachine).state.V 0xF = 0 ∧
    (step addRegMachine).state.PC = 0x200 := by
  refine ⟨rfl, by decide, rfl, rfl, by decide, by decide, by decide, by decide⟩

/-- C10.  Evaluation of the code at `PC = 0x200`, `SP = 0`, the word `0x2204`
at `0x200` and the word `0x00EE` at `0x204`: two steps end with `PC = 0x200`,
whereas the claim asks for `PC = 0x202`. -/
theorem call_ret_stays_at_call_site :
    callRetMachine.PC = 0x200 ∧ callRetMachine.SP = 0 ∧
    fetchWord callRetMachine = 0x2204 ∧
    callRetMachine.Memory 0x204 = 0x00 ∧ callRetMachine.Memory 0x205 = 0xEE ∧
    (run 2 callRetMachine).kind = Kind.ok ∧
    (run 2 callRetMachine).state.PC = 0x200 ∧
    (run 2 callRetMachine).state.PC ≠ 0x200 + 2 ∧
    (run 2 callRetMachine).state.SP = 0 := by
  refine ⟨rfl, rfl, by decide, rfl, rfl, by decide, by decide, by decide, by decide⟩

/-! ## Auxiliary facts: the shape of one iteration -/

theorem stepShape_ite (c : Chip8) (p : Prop) [Decidable p] (a b : Outcome)
    (ha : StepShape c a) (hb : StepShape c b) : StepShape c (if p then a else b) := by
  by_cases hp : p
  · rw [if_pos hp]; exact ha
  · rw [if_neg hp]; exact hb

/-- Whatever the machine, one iteration ends in one of the outcomes listed in
`StepShape`. -/
theorem step_shape (c : Chip8) : StepShape c (step c) := by
  unfold step
  repeat (first
    | refine stepShape_ite _ _ _ _ ?_ ?_
    | exact Or.inl rfl
    | exact Or.inr (Or.inl rfl)
    | exact Or.inr (Or.inr (Or.inl rfl))
    | exact Or.inr (Or.inr (Or.inr (Or.inl rfl)))
    | exact Or.inr (Or.inr (Or.inr (Or.inr (Or.inl rfl))))
    | exact Or.inr (Or.inr (Or.inr (Or.inr (Or.inr (Or.inl ⟨_, _, rfl⟩)))))
    | exact Or.inr (Or.inr (Or.inr (Or.inr (Or.inr (Or.inr rfl))))))

theorem clearLoop_nonzero (n : Nat) (a : Nat → Nat) (i : Nat)
    (h : clearLoop n a i ≠ 0) : a i ≠ 0 := by
  by_cases hi : i < n
  · exact absurd (clearLoop_below n a i hi) h
  · rw [clearLoop_above n a i (by omega)] at h
    exact h

/-- One iteration lights no display cell, however it ends. -/
theorem step_display_nonzero (c : Chip8) (i : Nat)
    (h : (step c).state.Display i ≠ 0) : c.Display i ≠ 0 := by
  rcases step_shape c with e | e | e | e | e | ⟨x, v, e⟩ | e <;> rw [e] at h
  · exact h
  · exact h
  · exact h
  · exact clearLoop_nonzero _ _ _ h
  · exact h
  · exact h
  · exact h

/-- A run lights no display cell, however it ends. -/
theorem run_display_nonzero (n : Nat) (c : Chip8) (i : Nat)
    (h : (run n c).state.Display i ≠ 0) : c.Display i ≠ 0 := by
  induction n generalizing c with
  | zero => exact h
  | succ k ih =>
    have hs := step_display_nonzero c i
    rw [run] at h
    cases hst : step c with
    | ok d =>
      rw [hst] at h hs
      exact hs (ih d h)
    | unknownOpcode d =>
      rw [hst] at h hs
      exact hs h
    | indexOutOfRange d =>
      rw [hst] at h hs
      exact hs h

/-! ## C11: `DXYN` -/

/-- C11.  Evaluation of the code at an all-zero display, the one-row sprite
`0x80` at `Memory[I]` and the word `0xD011` fetched twice: after the first
step every display cell is still 0, whereas the claim asks for the pixel of
the sprite to be set; after the second step `VF = 0`, whereas the claim asks
for `VF = 1`. -/
theorem draw_twice_draws_nothing :
    fetchWord spriteMachine = 0xD011 ∧
    spriteMachine.Memory spriteMachine.I = 0x80 ∧
    (step spriteMachine).kind = Kind.ok ∧
    (step spriteMachine).state.V 0xF = 0 ∧
    (∀ i, (step spriteMachine).state.Display i = 0) ∧
    fetchWord (step spriteMachine).state = 0xD011 ∧
    (run 2 spriteMachine).kind = Kind.ok ∧
    (run 2 spriteMachine).state.V 0xF = 0 ∧
    (run 2 spriteMachine).state.V 0xF ≠ 1 ∧
    (∀ i, (run 2 spriteMachine).state.Display i = 0) := by
  refine ⟨by decide, rfl, by decide, by decide, fun _ => rfl, by decide, by decide,
    by decide, by decide, fun _ => rfl⟩

/-! ## C12: the range of `PC` -/

theorem step_at_FFF (c : Chip8) (h : c.PC = 0xFFF) : step c = .indexOutOfRange c := by
  simp [step, h]

/-- C12, the claim refuted.  From `PC = 0xFFE` with the word `0x6000` in the
last two memory cells one step runs to its end and leaves `PC = 0x1000`,
above `0xFFF`. -/
theorem pc_leaves_range :
    lastWordMachine.PC ≤ 0xFFF ∧
    (step lastWordMachine).kind = Kind.ok ∧
    (step lastWordMachine).state.PC = 0x1000 ∧
    ¬ ((step lastWordMachine).state.PC ≤ 0xFFF) := by
  refine ⟨by decide, by decide, by decide, by decide⟩

/-- C12, amended.  For every machine with `PC ≤ 0xFFF` from which one step
runs to its end, the `PC` after the step is at most `0x1000`, and it is at
most `0xFFF` when `PC ≤ 0xFFD` before the step. -/
theorem step_pc_bound (c : Chip8) (hpc : c.PC ≤ 0xFFF) (hk : (step c).kind = Kind.ok) :
    (step c).state.PC ≤ 0x1000 ∧ (c.PC ≤ 0xFFD → (step c).state.PC ≤ 0xFFF) := by
  by_cases hF : c.PC = 0xFFF
  · rw [step_at_FFF c hF] at hk
    exact absurd hk (by simp [Outcome.kind])
  · have hE : c.PC ≤ 0xFFE := by omega
    have hmask : fetchWord c &&& 0x0FFF ≤ 0xFFF := by
      rw [and_0FFF]; omega
    rcases step_shape c with e | e | e | e | e | ⟨x, v, e⟩ | e <;> rw [e] at hk ⊢
    · exact absurd hk (by simp [Outcome.kind])
    · exact absurd hk (by simp [Outcome.kind])
    · simp only [Outcome.state]; omega
    · simp only [Outcome.state]; omega
    · simp only [Outcome.state]; omega
    · simp only [Outcome.state]; omega
    · simp only [Outcome.state]; omega

/-- C12 amended, at a concrete input: the word `0x6A2B` at `PC = 0x200`. -/
theorem step_pc_bound_witness :
    (withWord 0x6A2B).PC ≤ 0xFFF ∧ (step (withWord 0x6A2B)).kind = Kind.ok ∧
    (step (withWord 0x6A2B)).state.PC ≤ 0xFFF :=
  have hk : (step (withWord 0x6A2B)).kind = Kind.ok := by decide
  have h := step_pc_bound (withWord 0x6A2B) (by decide) hk
  ⟨by decide, hk, h.2 (by decide)⟩

/-! ## C13, C14: the disassembler -/

/-- C13.  Evaluation of the `-d` branch at the default ROM `00 E0` and the
two-byte program `12 00`: after the `PC` value 0 the branch prints two
instruction lines, `0x200` with the word `0x00E0` of the default ROM and
`0x202` with the word `0x0000`, whereas the claim asks for exactly one line,
`0x200` with the word `0x1200` of the program. -/
theorem disassembleBranch_reads_default_rom :
    (disassembleBranch [0x00, 0xE0] [0x12, 0x00]).2.kind = Kind.ok ∧
    (disassembleBranch [0x00, 0xE0] [0x12, 0x00]).1 =
      [ Printed.number 0,
        Printed.instr { addr := 0x200, word := 0x00E0, text := Mnemonic.CLS },
        Printed.instr { addr := 0x202, word := 0x0000, text := Mnemonic.SYS 0 } ] ∧
    [0x12, 0x00].length / 2 = 1 ∧ 0x12 * 256 + 0x00 = 0x1200 := by
  refine ⟨by decide, by decide, by decide, by decide⟩

/-- With `pc ≤ 0xFFE` the call returns: the line it prints and the caller's
machine. -/
theorem Disassemble_returns (m : Chip8) (p pc : Nat) (h : pc ≤ 0xFFE) :
    Disassemble m p pc = some
      ({ addr := m.PC
         word := wordAt m.Memory pc
         text := (disSwitch { m with Opcode := wordAt m.Memory pc }).1 }, m) := by
  have h1 : ¬ 4096 ≤ pc := by omega
  have h2 : ¬ 4096 ≤ (pc + 1) % 65536 := by omega
  simp only [Disassemble, DisassembleBody, if_neg h1, if_neg h2]

/-- C14.  For every machine `m` and every `pc ≤ 0xFFE` the call
`m.Disassemble(p, pc)` returns and leaves the caller with the machine `m`
itself, every field as before the call. -/
theorem Disassemble_keeps_machine (m : Chip8) (p pc : Nat) (h : pc ≤ 0xFFE) :
    ∃ line, Disassemble m p pc = some (line, m) :=
  ⟨_, Disassemble_returns m p pc h⟩

/-- C14, at a concrete input: the word `0x1234` (`JP 234`).  The body sets
`PC = 0x234` on the receiver copy; the caller's machine keeps `PC = 0x200`. -/
theorem Disassemble_keeps_machine_witness :
    (0x200 ≤ 0xFFE) ∧
    (∃ line, Disassemble (withWord 0x1234) 0 0x200 = some (line, withWord 0x1234)) ∧
    (DisassembleBody (withWord 0x1234) 0 0x200).map (fun r => r.2.PC) = some 0x234 ∧
    (withWord 0x1234).PC = 0x200 :=
  ⟨by decide, Disassemble_keeps_machine (withWord 0x1234) 0 0x200 (by decide),
    by decide, rfl⟩

/-! ## C15: the operand fields -/

theorem opX_eq (w : Nat) : opX w = w / 256 % 16 := by
  rw [opX, shr8_and_000F]

theorem opY_eq (w : Nat) : opY w = w / 16 % 16 := by
  rw [opY, and_000F, Nat.shiftRight_eq_div_pow]

theorem opN_eq (w : Nat) : opN w = w % 16 := by
  rw [opN, and_000F]

theorem opNN_eq (w : Nat) : opNN w = w % 256 := by
  rw [opNN, and_00FF, Nat.mod_mod]

theorem opNNN_eq (w : Nat) : opNNN w = w % 4096 := by
  rw [opNNN, and_0FFF]

theorem opKey_eq (w : Nat) : opKey w = (w / 4096 % 16) * 4096 := by
  rw [opKey, and_F000]

/-- C15.  For every 16-bit word `w`, with `family = w >> 12` and the operand
fields as the disassembler and the loop extract them,
`w = family*4096 + x*256 + y*16 + n`, `nn = y*16 + n`, `nnn = x*256 + nn`,
the dispatch key `w & 0xF000` is `family*4096`, and `x, y < 16`. -/
theorem operand_fields_partition (w : Nat) (hw : w < 65536) :
    w = (w >>> 12) * 4096 + opX w * 256 + opY w * 16 + opN w ∧
    opNN w = opY w * 16 + opN w ∧
    opNNN w = opX w * 256 + opNN w ∧
    opKey w = (w >>> 12) * 4096 ∧
    opX w < 16 ∧ opY w < 16 := by
  have hs : w >>> 12 = w / 4096 := by
    rw [Nat.shiftRight_eq_div_pow]
  rw [hs, opX_eq, opY_eq, opN_eq, opNN_eq, opNNN_eq, opKey_eq]
  refine ⟨by omega, by omega, by omega, by omega, by omega, by omega⟩

/-- C15, at a concrete input: the word `0x8124`. -/
theorem operand_fields_partition_witness :
    (0x8124 < 65536) ∧
    0x8124 = (0x8124 >>> 12) * 4096 + opX 0x8124 * 256 + opY 0x8124 * 16 + opN 0x8124 ∧
    opKey 0x8124 = (0x8124 >>> 12) * 4096 ∧ opX 0x8124 < 16 :=
  have h := operand_fields_partition 0x8124 (by decide)
  ⟨by decide, h.1, h.2.2.2.1, h.2.2.2.2.1⟩

/-! ## C16: the font table -/

/-- C16.  `chip8FontSet` has 80 bytes, its glyph `d` (the five bytes at
`5d .. 5d+4`) is glyph `d` of the standard hexadecimal font for each of the
16 digits, so the table is the standard font laid end to end, and every byte
has its low four bits equal to 0. -/
theorem chip8FontSet_is_standard :
    chip8FontSet.length = 80 ∧
    (∀ d, d < 16 → glyph d = standardFont.getD d []) ∧
    chip8FontSet = standardFont.flatten ∧
    (∀ b ∈ chip8FontSet, b &&& 0x0F = 0) ∧
    glyph 0x0 = [0xF0, 0x90, 0x90, 0x90, 0xF0] ∧
    glyph 0x1 = [0x20, 0x60, 0x20, 0x20, 0x70] ∧
    glyph 0xF = [0xF0, 0x80, 0xF0, 0x80, 0x80] := by
  refine ⟨by decide, by decide, by decide, by decide, by decide, by decide, by decide⟩

/-! ## Auxiliary facts: the dispatch of the loop, word class by word class -/

/-- A word without a `case` ends the iteration in the unknown-opcode panic. -/
theorem step_uncovered (c : Chip8) (hpc : c.PC ≤ 0xFFE) (h : Uncovered (fetchWord c)) :
    step c = .unknownOpcode { c with Opcode := fetchWord c } := by
  obtain ⟨h1, h2, _⟩ := fetch_in_range c hpc
  rcases h with ⟨hf, hs0, hsE⟩ | ⟨hf, hs8, hsE⟩ | ⟨hf, hs9E, hsA1⟩ |
    ⟨hf, k1, k2, k3, k4, k5, k6, k7, k8, k9⟩
  · simp [step, h1, h2, and_F000, and_000F, hf, hs0, hsE]
  · have e0 : fetchWord c % 16 ≠ 0 := by omega
    have e1 : fetchWord c % 16 ≠ 1 := by omega
    have e2 : fetchWord c % 16 ≠ 2 := by omega
    have e3 : fetchWord c % 16 ≠ 3 := by omega
    have e4 : fetchWord c % 16 ≠ 4 := by omega
    have e5 : fetchWord c % 16 ≠ 5 := by omega
    have e6 : fetchWord c % 16 ≠ 6 := by omega
    have e7 : fetchWord c % 16 ≠ 7 := by omega
    simp [step, h1, h2, and_F000, and_000F, hf, e0, e1, e2, e3, e4, e5, e6, e7, hsE]
  · simp [step, h1, h2, and_F000, and_00FF, hf, hs9E, hsA1]
  · simp [step, h1, h2, and_F000, and_00FF, hf, k1, k2, k3, k4, k5, k6, k7, k8, k9]

/-- A word whose `case` has no statement ends the iteration with only
`Opcode` overwritten. -/
theorem step_empty (c : Chip8) (hpc : c.PC ≤ 0xFFE) (h : EmptyCase (fetchWord c)) :
    step c = .ok { c with Opcode := fetchWord c } := by
  obtain ⟨h1, h2, _⟩ := fetch_in_range c hpc
  rcases h with ⟨hf, hs⟩ | hf | ⟨hf, hs⟩ | ⟨hf, hs⟩ | ⟨hf, hs⟩
  · simp [step, h1, h2, and_F000, and_000F, hf, hs]
  · rcases hf with hf | hf | hf | hf | hf | hf | hf <;>
      simp [step, h1, h2, and_F000, hf]
  · have hs2 : fetchWord c % 16 = 0 ∨ fetchWord c % 16 = 1 ∨ fetchWord c % 16 = 2 ∨
        fetchWord c % 16 = 3 ∨ fetchWord c % 16 = 4 ∨ fetchWord c % 16 = 5 ∨
        fetchWord c % 16 = 6 ∨ fetchWord c % 16 = 7 ∨ fetchWord c % 16 = 0xE := by omega
    rcases hs2 with hs | hs | hs | hs | hs | hs | hs | hs | hs <;>
      simp [step, h1, h2, and_F000, and_000F, hf, hs]
  · rcases hs with hs | hs <;>
      simp [step, h1, h2, and_F000, and_00FF, hf, hs]
  · rcases hs with hs | hs | hs | hs | hs | hs | hs | hs | hs <;>
      simp [step, h1, h2, and_F000, and_00FF, hf, hs]

theorem step_family_1 (c : Chip8) (hpc : c.PC ≤ 0xFFE)
    (hf : fetchWord c / 4096 % 16 = 1) :
    step c = .ok { c with Opcode := fetchWord c, PC := fetchWord c % 4096 } := by
  obtain ⟨h1, h2, _⟩ := fetch_in_range c hpc
  simp [step, h1, h2, and_F000, and_0FFF, hf]

theorem step_family_A (c : Chip8) (hpc : c.PC ≤ 0xFFE)
    (hf : fetchWord c / 4096 % 16 = 0xA) :
    step c = .ok { c with
      Opcode := fetchWord c
      I := fetchWord c % 4096
      PC := c.PC + 2 } := by
  obtain ⟨h1, h2, h3⟩ := fetch_in_range c hpc
  simp [step, h1, h2, h3, and_F000, and_0FFF, hf]

theorem step_family_D (c : Chip8) (hpc : c.PC ≤ 0xFFE)
    (hf : fetchWord c / 4096 % 16 = 0xD) :
    step c = .ok { c with
      Opcode := fetchWord c
      V := setAt c.V 0xF 0
      PC := c.PC + 2 } := by
  obtain ⟨h1, h2, h3⟩ := fetch_in_range c hpc
  simp [step, h1, h2, h3, and_F000, hf]

/-- Every word is without a `case`, or has a `case` without statement, or
belongs to one of the six cases with statements. -/
theorem word_classes (w : Nat) :
    Uncovered w ∨ EmptyCase w ∨ (w / 4096 % 16 = 0 ∧ w % 16 = 0) ∨
      w / 4096 % 16 = 1 ∨ w / 4096 % 16 = 6 ∨ w / 4096 % 16 = 7 ∨
      w / 4096 % 16 = 0xA ∨ w / 4096 % 16 = 0xD := by
  have hlt : w / 4096 % 16 < 16 := Nat.mod_lt _ (by decide)
  unfold Uncovered EmptyCase
  generalize w / 4096 % 16 = f at hlt ⊢
  generalize w % 16 = n
  generalize w % 256 = nn
  interval_cases f <;> simp <;> omega

/-- With `PC ≤ 0xFFE` the iteration ends in the unknown-opcode panic exactly
for the words without a `case`; for all other words it runs to its end. -/
theorem step_kind (c : Chip8) (hpc : c.PC ≤ 0xFFE) :
    ((step c).kind = Kind.unknownOpcode ∧ Uncovered (fetchWord c)) ∨
    ((step c).kind = Kind.ok ∧ ¬ Uncovered (fetchWord c)) := by
  by_cases hu : Uncovered (fetchWord c)
  · left
    rw [step_uncovered c hpc hu]
    exact ⟨rfl, hu⟩
  · right
    refine ⟨?_, hu⟩
    rcases word_classes (fetchWord c) with h | h | ⟨hf, hs⟩ | h | h | h | h | h
    · exact absurd h hu
    · rw [step_empty c hpc h]; rfl
    · rw [step_family_0_clear c hpc hf hs]; rfl
    · rw [step_family_1 c hpc h]; rfl
    · rw [step_family_6 c hpc h]; rfl
    · rw [step_family_7 c hpc h]; rfl
    · rw [step_family_A c hpc h]; rfl
    · rw [step_family_D c hpc h]; rfl

/-! ## Auxiliary facts: the switch of the disassembler -/

theorem and_00F0 (w : Nat) : w &&& 0x00F0 = (w / 16 % 16) * 16 := by
  apply Nat.eq_of_testBit_eq
  intro i
  have h : (w / 16 % 16) * 16 = ((w >>> 4) % 2 ^ 4) <<< 4 := by
    rw [Nat.shiftLeft_eq, Nat.shiftRight_eq_div_pow]; norm_num
  have h2 : (0x00F0 : Nat) = (2 ^ 4 - 1) <<< 4 := by decide
  rw [h, h2]
  simp only [Nat.testBit_and, Nat.testBit_shiftLeft, Nat.testBit_mod_two_pow,
    Nat.testBit_shiftRight, Nat.testBit_two_pow_sub_one]
  by_cases h4 : 4 ≤ i
  · by_cases h8 : i - 4 < 4
    · simp [h4, h8]
    · simp [h4, h8]
  · simp [h4]

/-- In family 0 the disassembler prints `CLS` for every word whose bits 7..4
are `E`. -/
theorem disSwitch_CLS (d : Chip8) (hf : d.Opcode / 4096 % 16 = 0)
    (hy : d.Opcode / 16 % 16 = 0xE) : (disSwitch d).1 = Mnemonic.CLS := by
  simp [disSwitch, opKey, and_F000, and_00F0, hf, hy]

/-- In family 0 the disassembler prints `SYS` with the low 12 bits for every
word whose bits 7..4 are not `E`. -/
theorem disSwitch_SYS (d : Chip8) (hf : d.Opcode / 4096 % 16 = 0)
    (hy : d.Opcode / 16 % 16 ≠ 0xE) :
    (disSwitch d).1 = Mnemonic.SYS (d.Opcode % 4096) := by
  have e1 : d.Opcode / 16 % 16 * 16 ≠ 224 := by omega
  have e2 : d.Opcode / 16 % 16 * 16 ≠ 238 := by omega
  simp [disSwitch, opKey, opNNN, and_F000, and_00F0, and_0FFF, hf, e1, e2]

/-- Outside family 0 the disassembler prints `UNKN` with the raw word for
every word the loop has no `case` for. -/
theorem disSwitch_unkn (d : Chip8) (h : Uncovered d.Opcode)
    (hf0 : d.Opcode / 4096 % 16 ≠ 0) : (disSwitch d).1 = Mnemonic.UNKN d.Opcode := by
  rcases h with ⟨hf, _, _⟩ | ⟨hf, hs8, hsE⟩ | ⟨hf, hs9E, hsA1⟩ |
    ⟨hf, k1, k2, k3, k4, k5, k6, k7, k8, k9⟩
  · exact absurd hf hf0
  · have e0 : d.Opcode % 16 ≠ 0 := by omega
    have e1 : d.Opcode % 16 ≠ 1 := by omega
    have e2 : d.Opcode % 16 ≠ 2 := by omega
    have e3 : d.Opcode % 16 ≠ 3 := by omega
    have e4 : d.Opcode % 16 ≠ 4 := by omega
    have e5 : d.Opcode % 16 ≠ 5 := by omega
    have e6 : d.Opcode % 16 ≠ 6 := by omega
    have e7 : d.Opcode % 16 ≠ 7 := by omega
    simp [disSwitch, opKey, and_F000, and_000F, hf, e0, e1, e2, e3, e4, e5, e6, e7, hsE]
  · simp [disSwitch, opKey, and_F000, and_00FF, hf, hs9E, hsA1]
  · simp [disSwitch, opKey, and_F000, and_00FF, hf, k1, k2, k3, k4, k5, k6, k7, k8, k9]

/-- Outside family 0 the disassembler prints a mnemonic other than `UNKN` for
every word the loop has a `case` for. -/
theorem disSwitch_known (d : Chip8) (h : ¬ Uncovered d.Opcode)
    (hf0 : d.Opcode / 4096 % 16 ≠ 0) : (disSwitch d).1 ≠ Mnemonic.UNKN d.Opcode := by
  rcases word_classes d.Opcode with hu | he | ⟨hf, _⟩ | hf | hf | hf | hf | hf
  · exact absurd hu h
  · rcases he with ⟨hf, _⟩ | hf | ⟨hf, hs⟩ | ⟨hf, hs⟩ | ⟨hf, hs⟩
    · exact absurd hf hf0
    · rcases hf with hf | hf | hf | hf | hf | hf | hf <;>
        simp [disSwitch, opKey, and_F000, hf]
    · have hs2 : d.Opcode % 16 = 0 ∨ d.Opcode % 16 = 1 ∨ d.Opcode % 16 = 2 ∨
          d.Opcode % 16 = 3 ∨ d.Opcode % 16 = 4 ∨ d.Opcode % 16 = 5 ∨
          d.Opcode % 16 = 6 ∨ d.Opcode % 16 = 7 ∨ d.Opcode % 16 = 0xE := by omega
      rcases hs2 with hs | hs | hs | hs | hs | hs | hs | hs | hs <;>
        simp [disSwitch, opKey, and_F000, and_000F, hf, hs]
    · rcases hs with hs | hs <;>
        simp [disSwitch, opKey, and_F000, and_00FF, hf, hs]
    · rcases hs with hs | hs | hs | hs | hs | hs | hs | hs | hs <;>
        simp [disSwitch, opKey, and_F000, and_00FF, hf, hs]
  · exact absurd hf hf0
  · simp [disSwitch, opKey, and_F000, hf]
  · simp [disSwitch, opKey, and_F000, hf]
  · simp [disSwitch, opKey, and_F000, hf]
  · simp [disSwitch, opKey, and_F000, hf]
  · simp [disSwitch, opKey, and_F000, hf]

/-! ## C17, C18: what the disassembler prints -/

/-- C17, the claim refuted.  The word `0x0000` is executed as clear-screen
(a lit display is cleared, `PC` advances by 2) but labelled `SYS 0`, not
`CLS`; the word `0x00EE` enters the return case of the loop but is labelled
`CLS`, not `RET`; the word `0x0001` is rejected by the loop but labelled
`SYS 1`, not `UNKN`. -/
theorem decoders_disagree_in_family_0 :
    fetchWord litZeroMachine = 0x0000 ∧ litZeroMachine.Display 0 = 1 ∧
    (step litZeroMachine).kind = Kind.ok ∧
    (step litZeroMachine).state.Display 0 = 0 ∧
    (step litZeroMachine).state.PC = 0x202 ∧
    (Disassemble litZeroMachine 0 0x200).map (fun r => r.1.text)
      = some (Mnemonic.SYS 0) ∧
    fetchWord (withWord 0x00EE) = 0x00EE ∧
    (step (withWord 0x00EE)).kind = Kind.ok ∧
    (step (withWord 0x00EE)).state.PC = 0x200 ∧
    (Disassemble (withWord 0x00EE) 0 0x200).map (fun r => r.1.text)
      = some Mnemonic.CLS ∧
    fetchWord (withWord 0x0001) = 0x0001 ∧
    (step (withWord 0x0001)).kind = Kind.unknownOpcode ∧
    (Disassemble (withWord 0x0001) 0 0x200).map (fun r => r.1.text)
      = some (Mnemonic.SYS 1) := by
  have hs := step_family_0_clear litZeroMachine (by decide) (by decide) (by decide)
  have hall : ∀ i, i < 64 * 32 → (step litZeroMachine).state.Display i = 0 := by
    rw [hs]
    intro i hi
    exact clearLoop_below _ _ i hi
  have hd : (step litZeroMachine).state.Display 0 = 0 := hall 0 (by decide)
  have hk : (step litZeroMachine).kind = Kind.ok := by rw [hs]; rfl
  have hp : (step litZeroMachine).state.PC = 0x202 := by rw [hs]; rfl
  refine ⟨by decide, rfl, hk, hd, hp, by decide, by decide,
    by decide, by decide, by decide, by decide, by decide, by decide⟩

/-- C17, amended.  For every machine with `PC ≤ 0xFFE`: when the word at
`PC` is of a family other than 0, `Disassemble` prints `UNKN` with the raw
word exactly when one iteration of the loop rejects the word with the
unknown-opcode panic; and the word `0x00E0` is labelled `CLS` and executed as
clear-screen. -/
theorem unkn_iff_rejected (c : Chip8) (p : Nat) (hpc : c.PC ≤ 0xFFE) :
    (fetchWord c / 4096 % 16 ≠ 0 →
      ((Disassemble c p c.PC).map (fun r => r.1.text)
          = some (Mnemonic.UNKN (fetchWord c)) ↔
        (step c).kind = Kind.unknownOpcode)) ∧
    (fetchWord c = 0x00E0 →
      (Disassemble c p c.PC).map (fun r => r.1.text) = some Mnemonic.CLS ∧
      step c = .ok { c with
        Opcode := fetchWord c
        Display := clearLoop (64 * 32) c.Display
        PC := c.PC + 2 }) := by
  have hw : wordAt c.Memory c.PC = fetchWord c := rfl
  rw [Disassemble_returns c p c.PC hpc, hw]
  simp only [Option.map_some', Option.some.injEq]
  constructor
  · intro hf0
    rcases step_kind c hpc with ⟨hk, hu⟩ | ⟨hk, hu⟩
    · constructor
      · intro _; exact hk
      · intro _; exact disSwitch_unkn { c with Opcode := fetchWord c } hu hf0
    · constructor
      · intro ht
        exact absurd ht (disSwitch_known { c with Opcode := fetchWord c } hu hf0)
      · intro hk2
        rw [hk] at hk2
        exact absurd hk2 (by decide)
  · intro h0
    constructor
    · exact disSwitch_CLS { c with Opcode := fetchWord c }
        (by show fetchWord c / 4096 % 16 = 0; omega)
        (by show fetchWord c / 16 % 16 = 0xE; omega)
    · exact step_family_0_clear c hpc (by omega) (by omega)

/-- C17 amended, at concrete inputs: the word `0x8128` is printed `UNKN` and
rejected, the word `0x8124` is neither, the word `0x00E0` is printed `CLS`. -/
theorem unkn_iff_rejected_witness :
    (step (withWord 0x8128)).kind = Kind.unknownOpcode ∧
    (Disassemble (withWord 0x8128) 0 0x200).map (fun r => r.1.text)
      = some (Mnemonic.UNKN 0x8128) ∧
    (step (withWord 0x8124)).kind ≠ Kind.unknownOpcode ∧
    (Disassemble (withWord 0x00E0) 0 0x200).map (fun r => r.1.text)
      = some Mnemonic.CLS :=
  have hk : (step (withWord 0x8128)).kind = Kind.unknownOpcode := by decide
  have ht : (Disassemble (withWord 0x8124) 0 0x200).map (fun r => r.1.text)
      ≠ some (Mnemonic.UNKN 0x8124) := by decide
  ⟨hk,
   ((unkn_iff_rejected (withWord 0x8128) 0 (by decide)).1 (by decide)).2 hk,
   fun h => ht (((unkn_iff_rejected (withWord 0x8124) 0 (by decide)).1 (by decide)).2 h),
   ((unkn_iff_rejected (withWord 0x00E0) 0 (by decide)).2 (by decide)).1⟩

/-- C18, the claim refuted.  At the word `0x00EE` the disassembler prints
`CLS`, not `RET`; at the word `0x0123`, a family-0 word outside the table, it
prints `SYS 123`, not `UNKN`. -/
theorem family_0_prints_CLS_or_SYS :
    wordAt (withWord 0x00EE).Memory 0x200 = 0x00EE ∧
    (Disassemble (withWord 0x00EE) 0 0x200).map (fun r => r.1.text)
      = some Mnemonic.CLS ∧
    (Disassemble (withWord 0x00EE) 0 0x200).map (fun r => r.1.text)
      ≠ some Mnemonic.RET ∧
    wordAt (withWord 0x0123).Memory 0x200 = 0x0123 ∧
    specTableMatches 0x0123 = false ∧
    (Disassemble (withWord 0x0123) 0 0x200).map (fun r => r.1.text)
      = some (Mnemonic.SYS 0x123) ∧
    (Disassemble (withWord 0x0123) 0 0x200).map (fun r => r.1.text)
      ≠ some (Mnemonic.UNKN 0x0123) := by
  refine ⟨by decide, by decide, by decide, by decide, by decide, by decide, by decide⟩

/-- C18, amended.  For every memory and `pc ≤ 0xFFE`, with `w` the word at
`pc`: `Disassemble` prints `CLS` when `w` is `0x00E0`; it prints `UNKN` with
the raw word for every `w` of the families 8, E, F that matches no sub-opcode
of the table; and it prints `SYS` with the low 12 bits for every `w` of
family 0 whose bits 7..4 are not `E`. -/
theorem Disassemble_text (c : Chip8) (p pc w : Nat) (hpc : pc ≤ 0xFFE)
    (hw : wordAt c.Memory pc = w) :
    (w = 0x00E0 →
      (Disassemble c p pc).map (fun r => r.1.text) = some Mnemonic.CLS) ∧
    (w / 4096 % 16 ≠ 0 → Uncovered w →
      (Disassemble c p pc).map (fun r => r.1.text) = some (Mnemonic.UNKN w)) ∧
    (w / 4096 % 16 = 0 → w / 16 % 16 ≠ 0xE →
      (Disassemble c p pc).map (fun r => r.1.text) = some (Mnemonic.SYS (w % 4096))) := by
  rw [Disassemble_returns c p pc hpc, hw]
  simp only [Option.map_some', Option.some.injEq]
  refine ⟨?_, ?_, ?_⟩
  · intro h0
    exact disSwitch_CLS { c with Opcode := w }
      (by show w / 4096 % 16 = 0; omega) (by show w / 16 % 16 = 0xE; omega)
  · intro hf0 hu
    exact disSwitch_unkn { c with Opcode := w } hu hf0
  · intro hf hy
    exact disSwitch_SYS { c with Opcode := w } hf hy

/-- C18 amended, at concrete inputs: the words `0x00E0`, `0xF100` and
`0x0123`. -/
theorem Disassemble_text_witness :
    (Disassemble (withWord 0x00E0) 0 0x200).map (fun r => r.1.text)
      = some Mnemonic.CLS ∧
    (Disassemble (withWord 0xF100) 0 0x200).map (fun r => r.1.text)
      = some (Mnemonic.UNKN 0xF100) ∧
    (Disassemble (withWord 0x0123) 0 0x200).map (fun r => r.1.text)
      = some (Mnemonic.SYS 0x123) :=
  ⟨(Disassemble_text (withWord 0x00E0) 0 0x200 0x00E0 (by decide) (by decide)).1 rfl,
   (Disassemble_text (withWord 0xF100) 0 0x200 0xF100 (by decide) (by decide)).2.1
      (by decide) (Or.inr (Or.inr (Or.inr (by decide)))),
   (Disassemble_text (withWord 0x0123) 0 0x200 0x0123 (by decide) (by decide)).2.2
      (by decide) (by decide)⟩

/-! ## C19: the display is never lit -/

/-- C19.  For every machine, after one step every display cell that is
nonzero was nonzero before the step; and from a machine whose `64 * 32`
display cells are all zero, every state a run of the loop reaches (the state
at a panic included) has all its display cells zero. -/
theorem no_step_lights_a_pixel (c : Chip8) :
    (∀ i, (step c).state.Display i ≠ 0 → c.Display i ≠ 0) ∧
    (∀ n, (∀ i, i < 64 * 32 → c.Display i = 0) →
      ∀ i, i < 64 * 32 → (run n c).state.Display i = 0) := by
  constructor
  · intro i h
    exact step_display_nonzero c i h
  · intro n h0 i hi
    by_contra hne
    exact run_display_nonzero n c i hne (h0 i hi)

/-! ## C20: the instructions whose `case` is empty -/

/-- From a word whose `case` has no statement, any positive number of
iterations ends where the first one does. -/
theorem run_empty (k : Nat) (c : Chip8) (hpc : c.PC ≤ 0xFFE)
    (h : EmptyCase (fetchWord c)) :
    run (k + 1) c = .ok { c with Opcode := fetchWord c } := by
  induction k generalizing c with
  | zero =>
    rw [run, step_empty c hpc h]
    rfl
  | succ j ih =>
    rw [run, step_empty c hpc h]
    exact ih { c with Opcode := fetchWord c } hpc h

/-- C20.  For every machine with `PC ≤ 0xFFE` whose fetched word has a
`case` without statement (family 0 with low nibble E, `2NNN`, `3XNN`, `4XNN`,
`5XYN`, `8XY0..8XY7`, `8XYE`, `9XYN`, `BNNN`, `CXNN`, `EX9E`, `EXA1`, `FX07`,
`FX0A`, `FX15`, `FX18`, `FX1E`, `FX29`, `FX33`, `FX55`, `FX65`), one step
changes no field other than `Opcode`, and after any number `k ≥ 1` of steps
the state is the state after one step, with `PC` at its original value. -/
theorem empty_case_is_a_fixpoint (c : Chip8) (k : Nat) (hpc : c.PC ≤ 0xFFE)
    (h : EmptyCase (fetchWord c)) (hk : 1 ≤ k) :
    step c = .ok { c with Opcode := fetchWord c } ∧
    run k c = step c ∧
    (run k c).state.PC = c.PC := by
  obtain ⟨j, rfl⟩ : ∃ j, k = j + 1 := ⟨k - 1, by omega⟩
  rw [run_empty j c hpc h, step_empty c hpc h]
  exact ⟨rfl, rfl, rfl⟩

/-- C20, at a concrete input: the word `0x8124` with `V1 = 0xF0`,
`V2 = 0x20`, and three steps. -/
theorem empty_case_is_a_fixpoint_witness :
    addRegMachine.PC ≤ 0xFFE ∧ EmptyCase (fetchWord addRegMachine) ∧
    run 3 addRegMachine = step addRegMachine ∧
    (run 3 addRegMachine).state.PC = 0x200 ∧
    (step addRegMachine).state.V 1 = 0xF0 :=
  have he : EmptyCase (fetchWord addRegMachine) :=
    Or.inr (Or.inr (Or.inl ⟨by decide, Or.inl (by decide)⟩))
  have h := empty_case_is_a_fixpoint addRegMachine 3 (by decide) he (by decide)
  ⟨by decide, he, h.2.1, h.2.2, by rw [h.1]; rfl⟩

end Chip8Emu
